import Mathlib

/-!
Verification of the type-annotation grammar and resolution engine of
`emmylua_render` (`src/emmylua_render/type_parser.py` together with the raw
declaration records of `src/emmylua_render/raw_models.py`).

The Python code is shallowly embedded:

* the raw pydantic records (`Class`, `Alias`, `LuaEnum`, members, …) become
  plain Lean structures;
* the Lark grammar `TYPE_GRAMMAR` plus the `TreeHydrator` transformer become a
  fuel-indexed recursive-descent parser producing `RT` values, following the
  grammar rules and the LALR conflict resolutions documented in the grammar
  comments (suffix operators resolve as shift, whitespace is ignored,
  keywords are recognised contextually as Lark's contextual lexer does);
* the dynamically subclassing wrapper classes (`OptionalType`, `ArrayType`,
  `VariadicType`) are ordinary constructors, and their Python behaviour
  (`isinstance` seeing through the wrapper, attribute access forwarding to the
  wrapped value) is modelled by explicit recursive functions (`isUnionInst`,
  `elemsAttr`, …);
* Python exceptions are modelled by `Except PErr`: `PErr.unexpected` stands
  for the Lark parse errors `UnexpectedCharacters`/`UnexpectedToken` (the only
  exceptions the code ever catches), `PErr.runtime` for every other
  exception (`AssertionError`, `TypeError`, `IndexError`, and
  `RecursionError`, the latter also standing for fuel exhaustion of the
  unguarded alias recursion).
-/

namespace EmmyluaRender

/-! ## Raw declaration records (`raw_models.py`) -/

/-- `LuaTypeVar`: a declared generic parameter (name plus optional bound). -/
structure LuaTypeVar where
  name : String
  base : Option String := none
deriving DecidableEq, Repr

/-- `FnParam`: raw function parameter/return record (`name`, `typ` both optional). -/
structure FnParam where
  name : Option String := none
  typ : Option String := none
deriving DecidableEq, Repr

/-- `FieldMember`: raw field record; `typ` is a raw type string, `literal` an
optional literal rendering. Doc metadata is opaque to the core and omitted. -/
structure FieldMember where
  name : String
  typ : String
  literal : Option String := none
deriving DecidableEq, Repr

/-- `FnMember`: raw function member record (params/returns carry raw strings). -/
structure FnMember where
  name : String
  params : List FnParam := []
  returns : List FnParam := []
deriving DecidableEq, Repr

/-- `Member`: the discriminated union `FnMember | FieldMember`. -/
inductive Member where
  | fld (m : FieldMember)
  | fn (m : FnMember)
deriving DecidableEq, Repr

/-- The declared name of a raw member. -/
def Member.mname : Member → String
  | .fld m => m.name
  | .fn m => m.name

/-- `Class`: raw class declaration. `members` is the name-keyed dict the
pydantic validator builds from the member list (insertion order, last wins). -/
structure ClassDecl where
  name : String
  bases : List String := []
  generics : List LuaTypeVar := []
  members : List (String × Member) := []
deriving DecidableEq, Repr

/-- `Alias`: raw alias declaration; `typ` is the raw underlying type string. -/
structure AliasDecl where
  name : String
  typ : Option String := none
  generics : List LuaTypeVar := []
  members : List Member := []
deriving DecidableEq, Repr

/-- `LuaEnum`: raw enum declaration; `typ` is the (possibly truncated) declared
summary type string, `members` the field list. -/
structure EnumDecl where
  name : String
  typ : Option String := none
  generics : List LuaTypeVar := []
  members : List Member := []
deriving DecidableEq, Repr

/-- The symbol catalog handed to `TreeHydrator.__init__`: the `classes`,
`aliases` and `enums` dicts of the `Index`, keyed by qualified name. -/
structure Catalog where
  classes : List (String × ClassDecl) := []
  aliases : List (String × AliasDecl) := []
  enums : List (String × EnumDecl) := []
deriving DecidableEq, Repr

/-- Python `dict` insertion (`d[k] = v`): updating an existing key keeps its
position, a new key is appended. -/
def dictInsert {α : Type} : List (String × α) → String → α → List (String × α)
  | [], k, v => [(k, v)]
  | (k', v') :: rest, k, v =>
      if k' = k then (k', v) :: rest else (k', v') :: dictInsert rest k v

/-! ## The resolved type model

One constructor per concrete Python class reachable from parsing:
`PrimitiveType` (and its display subclasses, which differ only in `repr`),
`LiteralStr`/`LiteralInt`/`LiteralBool`, bare `StructType` (unresolved),
`ClassType`, `AliasType` (carrying its eagerly parsed delegate `typ`),
`EnumType` (carrying its synthesized union delegate `typ`), `UnionType`,
`IntersectionType`, `TupleType`, `TableType`, `FunctionType`, the four
generic-instance classes, and the wrapper classes `OptionalType`, `ArrayType`,
`VariadicType`. -/

mutual
inductive RT where
  | prim (name : String)
  | litStr (v : String)
  | litInt (v : Int)
  | litBool (v : Bool)
  | strukt (name : String)
  | cls (name : String) (decl : ClassDecl)
  | aliasT (name : String) (decl : AliasDecl) (typ : RT)
  | enum (name : String) (decl : EnumDecl) (typ : RT)
  | union (elements : List RT) (omitted : Bool)
  | inter (elements : List RT) (omitted : Bool)
  | tupl (elements : List RT)
  | table (fields : List (TableKey × RT)) (omitted : Bool)
  | func (params : List (Option String × RT)) (rets : Option RT)
  | genericStruct (name : String) (typeArgs : List RT)
  | genericClass (name : String) (decl : ClassDecl) (typeArgs : List RT)
  | genericAlias (name : String) (decl : AliasDecl) (typ : RT) (typeArgs : List RT)
  | genericEnum (name : String) (decl : EnumDecl) (typ : RT) (typeArgs : List RT)
  | optional (inner : RT)
  | array (elementType : RT)
  | variadic (elementType : RT)
deriving Repr

/-- A `TableType._fields` key: a field name string or a key type (the
`None`-key case never survives hydration, see `TreeHydrator.table_type`). -/
inductive TableKey where
  | name (s : String)
  | typ (t : RT)
deriving Repr
end

/-- The delegate rendering of a `DocumentedFunction.rets` field, whose Python
value is `None`, a resolved type, or a `TupleType` whose element tuple may
contain `None` entries (for returns with no declared type string). -/
inductive DFnRets where
  | noneR
  | val (t : RT)
  | tupleMixed (elems : List (Option RT))
deriving Repr

/-- A hydrated member: `DocumentedField` (resolved type plus raw typedef) or
`DocumentedFunction` (resolved params/rets plus raw typedef). -/
inductive DocMember where
  | fld (typ : RT) (typedef : FieldMember)
  | fn (params : List (Option String × Option RT)) (rets : DFnRets) (typedef : FnMember)
deriving Repr

/-- An entry of the `attrs` dict inside `ClassType.members`: either a raw
member record (own declaration, hydrated afterwards) or an already-resolved
documented member inherited from a base. -/
inductive MemberAttr where
  | raw (m : Member)
  | doc (d : DocMember)
deriving Repr

/-- Python exceptions: `unexpected` is a Lark `UnexpectedCharacters` /
`UnexpectedToken` (the only exceptions ever caught by the code); `runtime`
is any other exception (`AssertionError`, `TypeError`, `IndexError`,
`RecursionError` alias fuel exhaustion). -/
inductive PErr where
  | unexpected
  | runtime
deriving DecidableEq, Repr

/-- Result of a fallible Python operation. -/
abbrev Res (α : Type) := Except PErr α

/-! ## Python `isinstance` and attribute forwarding through wrapper classes

`OptionalType`, `ArrayType` and `VariadicType` dynamically subclass the class
of their wrapped value, so `isinstance(x, C)` sees through any chain of
wrappers, and attribute access on a wrapper forwards to the innermost object
that owns the attribute (`__getattribute__` delegating to `inner` /
`element_type`). -/

/-- `isinstance(x, UnionType)` under dynamic wrapper subclassing. -/
def isUnionInst : RT → Bool
  | .union _ _ => true
  | .optional i => isUnionInst i
  | .array e => isUnionInst e
  | .variadic e => isUnionInst e
  | _ => false

/-- `isinstance(x, IntersectionType)` under dynamic wrapper subclassing. -/
def isInterInst : RT → Bool
  | .inter _ _ => true
  | .optional i => isInterInst i
  | .array e => isInterInst e
  | .variadic e => isInterInst e
  | _ => false

/-- `isinstance(x, OptionalType)` under dynamic wrapper subclassing. -/
def isOptionalInst : RT → Bool
  | .optional _ => true
  | .array e => isOptionalInst e
  | .variadic e => isOptionalInst e
  | _ => false

/-- `isinstance(x, FunctionType)` under dynamic wrapper subclassing. -/
def isFuncInst : RT → Bool
  | .func _ _ => true
  | .optional i => isFuncInst i
  | .array e => isFuncInst e
  | .variadic e => isFuncInst e
  | _ => false

/-- `isinstance(x, VariadicType)` under dynamic wrapper subclassing. -/
def isVariadicInst : RT → Bool
  | .variadic _ => true
  | .optional i => isVariadicInst i
  | .array e => isVariadicInst e
  | _ => false

/-- `isinstance(x, AnyType)` under dynamic wrapper subclassing (the parser
builds `AnyType()` for every occurrence of the keyword `any`). -/
def isAnyInst : RT → Bool
  | .prim n => n = "any"
  | .optional i => isAnyInst i
  | .array e => isAnyInst e
  | .variadic e => isAnyInst e
  | _ => false

/-- `isinstance(x, NilType)` under dynamic wrapper subclassing. -/
def isNilInst : RT → Bool
  | .prim n => n = "nil"
  | .optional i => isNilInst i
  | .array e => isNilInst e
  | .variadic e => isNilInst e
  | _ => false

/-- Attribute access `x.elements`, forwarded through wrappers to the innermost
object owning the attribute. -/
def elemsAttr : RT → Option (List RT)
  | .union es _ => some es
  | .inter es _ => some es
  | .tupl es => some es
  | .optional i => elemsAttr i
  | .array e => elemsAttr e
  | .variadic e => elemsAttr e
  | _ => none

/-- Attribute access `x.omitted`, forwarded through wrappers. -/
def omittedAttr : RT → Option Bool
  | .union _ o => some o
  | .inter _ o => some o
  | .table _ o => some o
  | .optional i => omittedAttr i
  | .array e => omittedAttr e
  | .variadic e => omittedAttr e
  | _ => none

/-- Attribute access `x.inner` (owned by `OptionalType`), forwarded through
the other wrappers. -/
def innerAttr : RT → Option RT
  | .optional i => some i
  | .array e => innerAttr e
  | .variadic e => innerAttr e
  | _ => none

/-- Attribute access `x.element_type` (owned by `ArrayType`/`VariadicType`),
forwarded through `OptionalType`. -/
def elementTypeAttr : RT → Option RT
  | .array e => some e
  | .variadic e => some e
  | .optional i => elementTypeAttr i
  | _ => none

/-- Attribute access `x.rets` (owned by `FunctionType`), forwarded through
wrappers. -/
def retsAttr : RT → Option RT
  | .func _ r => r
  | .optional i => retsAttr i
  | .array e => retsAttr e
  | .variadic e => retsAttr e
  | _ => none

/-! ## Pure hydrator actions (`TreeHydrator`) -/

/-- `TreeHydrator.union_type`: collapse a single element; otherwise flatten
elements that are (instances of) unions, OR-ing their `omitted` flags, hoist
elements that are (instances of) optionals by keeping their `inner`, and wrap
the result in `OptionalType` if any optional was seen. -/
def unionTypeH (items : List RT) (omitted : Bool) : RT :=
  match items with
  | [x] => x
  | _ =>
    let step : (List RT × Bool × Bool) → RT → (List RT × Bool × Bool) := fun acc sub =>
      if isUnionInst sub then
        (acc.1 ++ (elemsAttr sub).getD [], acc.2.1 || (omittedAttr sub).getD false, acc.2.2)
      else if isOptionalInst sub then
        (acc.1 ++ [(innerAttr sub).getD sub], acc.2.1, true)
      else
        (acc.1 ++ [sub], acc.2.1, acc.2.2)
    let r := items.foldl step ([], omitted, false)
    if r.2.2 then .optional (.union r.1 r.2.1) else .union r.1 r.2.1

/-- `TreeHydrator.intersection_type`: collapse a single element; otherwise
flatten elements that are (instances of) intersections, OR-ing `omitted`. -/
def intersectionTypeH (items : List RT) (omitted : Bool) : RT :=
  match items with
  | [x] => x
  | _ =>
    let step : (List RT × Bool) → RT → (List RT × Bool) := fun acc sub =>
      if isInterInst sub then
        (acc.1 ++ (elemsAttr sub).getD [], acc.2 || (omittedAttr sub).getD false)
      else
        (acc.1 ++ [sub], acc.2)
    let r := items.foldl step ([], omitted)
    .inter r.1 r.2

/-- `TreeHydrator.optional_type`: return an (instance of an) optional
unchanged, otherwise wrap in `OptionalType`. -/
def optionalTypeH (inner : RT) : RT :=
  if isOptionalInst inner then inner else .optional inner

/-- A parsed table field: a keyed field or the bare `...` omission marker
(`ArrayOmissionMarker`). -/
inductive TableItem where
  | fld (k : TableKey) (v : RT)
  | omission
deriving Repr

/-- `TreeHydrator.table_type`: drop omission markers, setting `omitted` when
one was present. -/
def tableTypeH (items : List TableItem) : RT :=
  if items.any (fun it => match it with | .omission => true | _ => false) then
    .table (items.filterMap (fun it => match it with | .fld k v => some (k, v) | .omission => none)) true
  else
    .table (items.filterMap (fun it => match it with | .fld k v => some (k, v) | .omission => none)) false

/-! ## Tokens and lexer

The Lark grammar's terminals: punctuation, `DOTS` (`...`), `->`,
`SIGNED_INT` (`["-"] INT`), `ESCAPED_STRING` (double quotes, backslash
escapes kept verbatim — the `string_literal` action only strips the quotes),
and `CNAME` identifiers. Keywords (`fun`, `multi`, `self`, the primitive
names, `true`/`false`) are string literals in the grammar; Lark's contextual
lexer only prefers them over `IDENTIFIER` in parser states where the keyword
terminal is acceptable, so we lex a generic `name` token and let the parser
interpret it contextually. Whitespace is ignored (`%ignore WS`). -/

inductive Tok where
  | name (s : String)
  | int (v : Int)
  | str (raw : String)
  | lparen | rparen | lbrack | rbrack | lbrace | rbrace
  | langle | rangle | quest | pipe | amp | comma | colon | dot | dots | arrow
deriving DecidableEq, Repr

/-- `CNAME` continuation characters: ASCII letters, digits, underscore. -/
def isIdentChar (c : Char) : Bool := c.isAlpha || c.isDigit || c = '_'

/-- `CNAME` start characters: ASCII letters or underscore. -/
def isIdentStart (c : Char) : Bool := c.isAlpha || c = '_'

/-- Scan the inside of an `ESCAPED_STRING` after the opening quote; a
backslash escapes the next character; the raw inner text (escapes untouched)
is returned, mirroring the `token.value[1:-1]` slice of `string_literal`. -/
def lexStringInner : List Char → Res (String × List Char)
  | [] => .error .unexpected
  | '\\' :: c :: rest =>
      match lexStringInner rest with
      | .ok (s, r) => .ok (("\\".push c) ++ s, r)
      | .error e => .error e
  | '"' :: rest => .ok ("", rest)
  | c :: rest =>
      match lexStringInner rest with
      | .ok (s, r) => .ok (String.singleton c ++ s, r)
      | .error e => .error e

/-- Digits to a natural number. -/
def digitsToNat (ds : List Char) : Nat :=
  ds.foldl (fun a c => a * 10 + (c.toNat - 48)) 0

/-- The lexer. Fuel dominates the character count; an unlexable character is
`UnexpectedCharacters`. -/
def lexF : Nat → List Char → Res (List Tok)
  | 0, _ => .error .runtime
  | _, [] => .ok []
  | f + 1, c :: cs =>
    if c = ' ' || c = '\t' || c = '\n' || c = '\r' then lexF f cs
    else if c = '(' then (Tok.lparen :: ·) <$> lexF f cs
    else if c = ')' then (Tok.rparen :: ·) <$> lexF f cs
    else if c = '[' then (Tok.lbrack :: ·) <$> lexF f cs
    else if c = ']' then (Tok.rbrack :: ·) <$> lexF f cs
    else if c = Char.ofNat 123 then (Tok.lbrace :: ·) <$> lexF f cs
    else if c = Char.ofNat 125 then (Tok.rbrace :: ·) <$> lexF f cs
    else if c = '<' then (Tok.langle :: ·) <$> lexF f cs
    else if c = '>' then (Tok.rangle :: ·) <$> lexF f cs
    else if c = '?' then (Tok.quest :: ·) <$> lexF f cs
    else if c = '|' then (Tok.pipe :: ·) <$> lexF f cs
    else if c = '&' then (Tok.amp :: ·) <$> lexF f cs
    else if c = ',' then (Tok.comma :: ·) <$> lexF f cs
    else if c = ':' then (Tok.colon :: ·) <$> lexF f cs
    else if c = '.' then
      match cs with
      | '.' :: '.' :: rest => (Tok.dots :: ·) <$> lexF f rest
      | _ => (Tok.dot :: ·) <$> lexF f cs
    else if c = '-' then
      match cs with
      | '>' :: rest => (Tok.arrow :: ·) <$> lexF f rest
      | d :: _ =>
          if d.isDigit then
            let ds := cs.takeWhile Char.isDigit
            (Tok.int (-(digitsToNat ds : Int)) :: ·) <$> lexF f (cs.dropWhile Char.isDigit)
          else .error .unexpected
      | [] => .error .unexpected
    else if c.isDigit then
      let ds := (c :: cs).takeWhile Char.isDigit
      (Tok.int (digitsToNat ds : Int) :: ·) <$> lexF f ((c :: cs).dropWhile Char.isDigit)
    else if c = '"' then
      match lexStringInner cs with
      | .ok (s, rest) => (Tok.str s :: ·) <$> lexF f rest
      | .error e => .error e
    else if isIdentStart c then
      let nm := (c :: cs).takeWhile isIdentChar
      (Tok.name (String.mk nm) :: ·) <$> lexF f ((c :: cs).dropWhile isIdentChar)
    else .error .unexpected

/-- The primitive keywords of rule `primitive_type` and the `PrimitiveType`
name each maps to (`void` maps to `NilType`). -/
def primKeyword : String → Option String
  | "nil" => some "nil"
  | "boolean" => some "boolean"
  | "number" => some "number"
  | "integer" => some "integer"
  | "userdata" => some "userdata"
  | "lightuserdata" => some "lightuserdata"
  | "thread" => some "thread"
  | "any" => some "any"
  | "void" => some "nil"
  | "self" => some "self"
  | "function" => some "function"
  | "string" => some "string"
  | "unknown" => some "unknown"
  | _ => none

/-! ## The recursive core

`parse` (Lark parser plus inline `TreeHydrator`), `substitute_typevars`, and
the eager alias/enum hydration are mutually recursive (hydrating a struct
reference to an alias re-enters `parse` on the alias's underlying string;
hydrating a generic alias/enum instance re-enters both `parse` and
`substitute_typevars`). The recursion is not guarded against cyclic alias
chains in the source (a cycle raises `RecursionError`), so the whole family is
indexed by fuel: level `n + 1` functions call level `n` functions, and level
`0` raises `PErr.runtime` (standing for `RecursionError`). -/

structure Interp where
  parse : String → Res RT
  parseType : List Tok → Res (RT × List Tok)
  parsePrimary : List Tok → Res (RT × List Tok)
  parseSuffixLoop : RT → List Tok → Res (RT × List Tok)
  parseBasic : List Tok → Res (RT × List Tok)
  parseTypeList : List Tok → Res (List RT × List Tok)
  parseSepElems : Tok → List Tok → Res (List RT × Bool × List Tok)
  parseParams : List Tok → Res (List (Option String × RT) × List Tok)
  parseTableItems : List Tok → Res (List TableItem × List Tok)
  substitute : List (String × RT) → RT → Res RT

/-- The typevar context `GenericStructInstanceType._typevar_ctx`:
`{generic.name: typearg for generic, typearg in zip(generics, type_args)}`
(the zip truncates; duplicate names overwrite). -/
def zipCtxF (gens : List LuaTypeVar) (args : List RT) : List (String × RT) :=
  (List.zip gens args).foldl (fun a p => dictInsert a p.1.name p.2) []

/-- `StructType._filter_typevars`: one argument per declared generic, taken
from the context when bound there (setting `found_any`), else a bare
unresolved `StructType` of the parameter name. -/
def filterTypevarsF (tv : List (String × RT)) (gens : List LuaTypeVar) : List RT × Bool :=
  gens.foldl (fun acc g =>
    match List.lookup g.name tv with
    | some v => (acc.1 ++ [v], true)
    | none => (acc.1 ++ [RT.strukt g.name], acc.2)) ([], false)

/-- The declaration-rendering check of `TreeHydrator.generic_struct_type`:
walk the arguments; a non-`StructType` argument or a name mismatch breaks
(`.ok false`); indexing `base_generics[i]` past the end raises `IndexError`;
completing the loop means every argument matched (`.ok true`). -/
def allMatchF (gens : List LuaTypeVar) : Nat → List RT → Res Bool
  | _, [] => .ok true
  | i, a :: as =>
      match a with
      | .strukt an =>
          match gens.get? i with
          | none => .error .runtime
          | some g => if an = g.name then allMatchF gens (i + 1) as else .ok false
      | _ => .ok false

/-- `GenericClassInstanceType` construction;
`GenericStructInstanceType.__post_init__` asserts
`len(type_args) <= len(typedef.generics)` when a typedef is present. -/
def mkGenericClassF (n : String) (d : ClassDecl) (args : List RT) : Res RT :=
  if args.length ≤ d.generics.length then .ok (.genericClass n d args) else .error .runtime

/-- The string parsed for a field member: `getattr(member, "literal", None) or
member.typ` (a `None` or empty literal falls back to the type string). -/
def fieldSrc (m : FieldMember) : String :=
  match m.literal with
  | some l => if l = "" then m.typ else l
  | none => m.typ

/-- `DocumentedField.from_member`: parse `literal or typ` (no exception
handling), then substitute when a non-empty typevar context is given. -/
def fromMemberFF (I : Interp) (ctx : List (String × RT)) (m : FieldMember) : Res DocMember := do
  let t ← I.parse (fieldSrc m)
  if ctx.isEmpty then .ok (.fld t m)
  else do
    let t' ← I.substitute ctx t
    .ok (.fld t' m)

/-- `DocumentedFunction.from_member`: parse each param/return type string,
catching only the parse errors (`UnexpectedCharacters`/`UnexpectedToken`) and
substituting `UnknownType()`; params/returns without a type string stay
`None`; a single return collapses (a `NilType` return becomes `None`), any
other arity is wrapped in a `TupleType`; finally substitute when a non-empty
typevar context is given (substitution over a `None` param or tuple entry
raises `AttributeError`). -/
def fromMemberFnF (I : Interp) (ctx : List (String × RT)) (m : FnMember) : Res DocMember := do
  let params ← m.params.mapM (fun p =>
    match p.typ with
    | none => .ok (p.name, (none : Option RT))
    | some s =>
        match I.parse s with
        | .ok t => .ok (p.name, some t)
        | .error .unexpected => .ok (p.name, some (RT.prim "unknown"))
        | .error .runtime => (.error .runtime : Res (Option String × Option RT)))
  let rets0 ← m.returns.mapM (fun p =>
    match p.typ with
    | none => .ok (none : Option RT)
    | some s =>
        match I.parse s with
        | .ok t => .ok (some t)
        | .error .unexpected => .ok (some (RT.prim "unknown"))
        | .error .runtime => (.error .runtime : Res (Option RT)))
  let rets : DFnRets :=
    match rets0 with
    | [some t] => if isNilInst t then .noneR else .val t
    | [none] => .noneR
    | rs => .tupleMixed rs
  if ctx.isEmpty then .ok (.fn params rets m)
  else do
    let params' ← params.mapM (fun p =>
      match p.2 with
      | none => (.error .runtime : Res (Option String × Option RT))
      | some t => do
          let t' ← I.substitute ctx t
          .ok (p.1, some t'))
    let rets' ← (match rets with
      | .noneR => .ok DFnRets.noneR
      | .val t => do
          let t' ← I.substitute ctx t
          .ok (DFnRets.val t')
      | .tupleMixed rs => do
          let rs' ← rs.mapM (fun r =>
            match r with
            | none => (.error .runtime : Res (Option RT))
            | some t => do
                let t' ← I.substitute ctx t
                .ok (some t'))
          .ok (DFnRets.tupleMixed rs') : Res DFnRets)
    .ok (.fn params' rets' m)

/-- `StructType.members` / `GenericStructInstanceType.members` dict
construction over a raw member list: hydrate each member in order into the
name-keyed dict (last wins); the first raised exception aborts. -/
def membersDictF (I : Interp) (ctx : List (String × RT)) (ms : List Member) :
    Res (List (String × DocMember)) :=
  ms.foldlM (fun acc m => do
    let d ← (match m with
      | Member.fld fm => fromMemberFF I ctx fm
      | Member.fn fm => fromMemberFnF I ctx fm)
    .ok (dictInsert acc m.mname d)) []

/-- `EnumType.__post_init__`: the delegate is the `UnionType` of the resolved
types of the field members (functions filtered out), in member-dict order —
the declared summary `typ` string of the enum declaration is never read. -/
def enumDelegateF (I : Interp) (ctx : List (String × RT)) (d : EnumDecl) : Res RT := do
  let md ← membersDictF I ctx d.members
  .ok (.union (md.filterMap fun p => match p.2 with | .fld t _ => some t | _ => none) false)

/-- `GenericAliasInstanceType` construction: `AliasType.__post_init__`
(re-parse the underlying string; `parse(None)` raises `TypeError`), then the
arity assert, then substitution of the typevar context into the delegate. -/
def mkGenericAliasF (I : Interp) (n : String) (d : AliasDecl) (args : List RT) : Res RT := do
  let t ← (match d.typ with
    | some s => I.parse s
    | none => (.error .runtime : Res RT))
  if args.length ≤ d.generics.length then do
    let t' ← I.substitute (zipCtxF d.generics args) t
    .ok (.genericAlias n d t' args)
  else .error .runtime

/-- `GenericEnumInstanceType` construction: `EnumType.__post_init__` (fields
resolved through the typevar context, since `GenericStructInstanceType.members`
takes MRO precedence), then the arity assert, then substitution into the
already-built union delegate. -/
def mkGenericEnumF (I : Interp) (n : String) (d : EnumDecl) (args : List RT) : Res RT := do
  let u ← enumDelegateF I (zipCtxF d.generics args) d
  if args.length ≤ d.generics.length then do
    let u' ← I.substitute (zipCtxF d.generics args) u
    .ok (.genericEnum n d u' args)
  else .error .runtime

/-- `TreeHydrator.struct_type`: classify the dotted name against the catalog
(classes, then aliases, then enums), degrading to a bare unresolved
`StructType`. Alias hydration eagerly parses the underlying string; enum
hydration eagerly synthesizes the union delegate. -/
def structTypeAF (I : Interp) (cat : Catalog) (full : String) : Res RT :=
  match List.lookup full cat.classes with
  | some d => .ok (.cls full d)
  | none =>
    match List.lookup full cat.aliases with
    | some d =>
        (match d.typ with
         | some s => do
             let t ← I.parse s
             .ok (.aliasT full d t)
         | none => .error .runtime)
    | none =>
      match List.lookup full cat.enums with
      | some d => do
          let u ← enumDelegateF I [] d
          .ok (.enum full d u)
      | none => .ok (.strukt full)

/-- `TreeHydrator.generic_struct_type`: an unresolved base always yields a
`GenericStructInstanceType`; for a resolved base, if every argument is a bare
`StructType` matching the declared generic parameter name at its position the
bare base is returned, otherwise the kind-specific generic instance is
constructed. -/
def genericAF (I : Interp) (base : RT) (args : List RT) : Res RT :=
  match base with
  | .strukt n => .ok (.genericStruct n args)
  | .cls n d => do
      let b ← allMatchF d.generics 0 args
      if b then .ok base else mkGenericClassF n d args
  | .aliasT n d _ => do
      let b ← allMatchF d.generics 0 args
      if b then .ok base else mkGenericAliasF I n d args
  | .enum n d _ => do
      let b ← allMatchF d.generics 0 args
      if b then .ok base else mkGenericEnumF I n d args
  | _ => .error .runtime

/-- Continue a dotted `struct_type` name: `IDENTIFIER ("." IDENTIFIER)*`. -/
def parseDottedTail (acc : String) : List Tok → String × List Tok
  | .dot :: .name m :: rest => parseDottedTail (acc ++ "." ++ m) rest
  | toks => (acc, toks)

/-- One `param` of `param_list`: `DOTS ":" type` (named `"..."`), bare `DOTS`
(an unnamed `Variadic(AnyType())`), `(IDENTIFIER|SELF) ":" type`, or an
unnamed `type`. -/
def parseOneParamF (I : Interp) (toks : List Tok) : Res ((Option String × RT) × List Tok) :=
  match toks with
  | .dots :: .colon :: rest => do
      let (t, r) ← I.parseType rest
      .ok ((some "...", t), r)
  | .dots :: rest => .ok (((none : Option String), RT.variadic (.prim "any")), rest)
  | .name n :: .colon :: rest => do
      let (t, r) ← I.parseType rest
      .ok ((some n, t), r)
  | _ => do
      let (t, r) ← I.parseType toks
      .ok (((none : Option String), t), r)

/-- `param_list`: `param ("," param)*`. -/
def parseParamsF (I : Interp) (toks : List Tok) :
    Res (List (Option String × RT) × List Tok) := do
  let (p, r) ← parseOneParamF I toks
  match r with
  | .comma :: r2 => do
      let (ps, r3) ← I.parseParams r2
      .ok (p :: ps, r3)
  | _ => .ok ([p], r)

/-- One `table_field`: bare `DOTS` (omission), `"[" type "]" ":" type`, or
`IDENTIFIER ":" type` (any name is an `IDENTIFIER` here — no keyword terminal
is acceptable in this parser state, so the contextual lexer yields
`IDENTIFIER` even for keyword spellings). -/
def parseOneTableItemF (I : Interp) (toks : List Tok) : Res (TableItem × List Tok) :=
  match toks with
  | .dots :: rest => .ok (.omission, rest)
  | .lbrack :: rest => do
      let (k, r) ← I.parseType rest
      match r with
      | .rbrack :: .colon :: r2 => do
          let (v, r3) ← I.parseType r2
          .ok (.fld (.typ k) v, r3)
      | _ => .error .unexpected
  | .name n :: .colon :: rest => do
      let (v, r) ← I.parseType rest
      .ok (.fld (.name n) v, r)
  | _ => .error .unexpected

/-- `_table_field_list`: `table_field ("," table_field)*`. -/
def parseTableItemsF (I : Interp) (toks : List Tok) : Res (List TableItem × List Tok) := do
  let (it, r) ← parseOneTableItemF I toks
  match r with
  | .comma :: r2 => do
      let (its, r3) ← I.parseTableItems r2
      .ok (it :: its, r3)
  | _ => .ok ([it], r)

/-- `type_list`: `type ("," type)*`. -/
def parseTypeListF (I : Interp) (toks : List Tok) : Res (List RT × List Tok) := do
  let (t, r) ← I.parseType toks
  match r with
  | .comma :: r2 => do
      let (ts, r3) ← I.parseTypeList r2
      .ok (t :: ts, r3)
  | _ => .ok ([t], r)

/-- Union/intersection element tail after the first separator: further
`primary_type` elements separated by `sep`, then an optional trailing `DOTS`
(the omission marker of `union_type_omitted`/`intersection_type_omitted`),
then the closing parenthesis. -/
def parseSepElemsF (I : Interp) (sep : Tok) (toks : List Tok) :
    Res (List RT × Bool × List Tok) := do
  let (e, r) ← I.parsePrimary toks
  match r with
  | .dots :: .rparen :: r2 => .ok ([e], true, r2)
  | .rparen :: r2 => .ok ([e], false, r2)
  | t' :: r2 =>
      if t' = sep then do
        let (es, om, r3) ← I.parseSepElems sep r2
        .ok (e :: es, om, r3)
      else .error .unexpected
  | [] => .error .unexpected

/-- `fun` after the keyword: `"(" [param_list] ")"`, then a greedily shifted
`"->" type` return (so a suffix after the return binds to the return type). -/
def parseFunF (I : Interp) (toks : List Tok) : Res (RT × List Tok) := do
  let (ps, r) ← (match toks with
    | .lparen :: .rparen :: rest => .ok (([] : List (Option String × RT)), rest)
    | .lparen :: rest => do
        let (ps, r) ← I.parseParams rest
        match r with
        | .rparen :: r2 => .ok (ps, r2)
        | _ => (.error .unexpected : Res (List (Option String × RT) × List Tok))
    | _ => .error .unexpected)
  match r with
  | .arrow :: r2 => do
      let (ret, r3) ← I.parseType r2
      .ok (RT.func ps (some ret), r3)
  | _ => .ok (RT.func ps none, r)

/-- Dispatch after an opening parenthesis: a following `|`/`&` makes a
union/intersection of `primary_type` elements (a variadic first element is an
LALR error there); a `,` makes a tuple; a lone element closes as a one-element
tuple, except that the dedicated rule `"(" function ")" "?"` wraps a directly
enclosed function type in `OptionalType`. -/
def parseParenF (I : Interp) (toks : List Tok) : Res (RT × List Tok) := do
  let (t, r) ← I.parseType toks
  match r with
  | .pipe :: r2 =>
      (match t with
       | .variadic _ => .error .unexpected
       | _ => do
          let (es, om, r3) ← I.parseSepElems .pipe r2
          .ok (unionTypeH (t :: es) om, r3))
  | .amp :: r2 =>
      (match t with
       | .variadic _ => .error .unexpected
       | _ => do
          let (es, om, r3) ← I.parseSepElems .amp r2
          .ok (intersectionTypeH (t :: es) om, r3))
  | .comma :: r2 => do
      let (ts, r3) ← I.parseTypeList r2
      match r3 with
      | .rparen :: r4 => .ok (.tupl (t :: ts), r4)
      | _ => .error .unexpected
  | .rparen :: r2 =>
      (match t, r2 with
       | .func _ _, .quest :: r3 => .ok (optionalTypeH t, r3)
       | _, _ => .ok (.tupl [t], r2))
  | _ => .error .unexpected

/-- `basic_type`: literals, `fun`, tables, parenthesized forms, primitives,
and (dotted, optionally generic) struct references. Keyword interpretation is
contextual, mirroring Lark's contextual lexer. -/
def parseBasicF (I : Interp) (cat : Catalog) (toks : List Tok) : Res (RT × List Tok) :=
  match toks with
  | .name n :: rest =>
      if n = "fun" then parseFunF I rest
      else if n = "true" then .ok (.litBool true, rest)
      else if n = "false" then .ok (.litBool false, rest)
      else
        match primKeyword n with
        | some p => .ok (.prim p, rest)
        | none =>
          let (full, r2) := parseDottedTail n rest
          match r2 with
          | .langle :: r3 => do
              let (args, r4) ← I.parseTypeList r3
              (match r4 with
               | .rangle :: r5 => do
                   let base ← structTypeAF I cat full
                   let g ← genericAF I base args
                   .ok (g, r5)
               | _ => .error .unexpected)
          | _ => do
              let b ← structTypeAF I cat full
              .ok (b, r2)
  | .int v :: rest => .ok (.litInt v, rest)
  | .str s :: rest => .ok (.litStr s, rest)
  | .lbrace :: rest =>
      (match rest with
       | .rbrace :: r2 => .ok (tableTypeH [], r2)
       | _ => do
          let (items, r2) ← I.parseTableItems rest
          match r2 with
          | .rbrace :: r3 => .ok (tableTypeH items, r3)
          | _ => .error .unexpected)
  | .lparen :: rest => parseParenF I rest
  | _ => .error .unexpected

/-- The suffix loop of `suffix_type`: trailing `?` (through
`TreeHydrator.optional_type`) and `[]` (through `array_type`), greedily. -/
def parseSuffixLoopF (I : Interp) (t : RT) (toks : List Tok) : Res (RT × List Tok) :=
  match toks with
  | .quest :: rest => I.parseSuffixLoop (optionalTypeH t) rest
  | .lbrack :: .rbrack :: rest => I.parseSuffixLoop (RT.array t) rest
  | _ => .ok (t, toks)

/-- `primary_type`: a `basic_type` with its suffixes. -/
def parsePrimaryF (I : Interp) (toks : List Tok) : Res (RT × List Tok) := do
  let (t, r) ← I.parseBasic toks
  I.parseSuffixLoop t r

/-- `type`: `primary_type | variadic_type`. At a `type` position the keyword
`multi` is acceptable to the contextual lexer and must form
`multi "<" "..." ">"` (`complex_variadic_type`, a `VariadicType(UnknownType())`);
otherwise a trailing `DOTS` after the primary makes a `variadic_type`. -/
def parseTypeF (I : Interp) (toks : List Tok) : Res (RT × List Tok) :=
  match toks with
  | .name "multi" :: .langle :: .dots :: .rangle :: r2 => .ok (.variadic (.prim "unknown"), r2)
  | .name "multi" :: _ => .error .unexpected
  | _ => do
      let (t, r) ← I.parsePrimary toks
      match r with
      | .dots :: r2 => .ok (.variadic t, r2)
      | _ => .ok (t, r)

/-- `parse(text)`: lex (fuel is the character count, which suffices since
every lexer step consumes a character), parse the start rule `type`, and
require the input to be exhausted. -/
def parseTopF (I : Interp) (s : String) : Res RT := do
  let toks ← lexF (s.length + 1) s.data
  let (t, r) ← I.parseType toks
  match r with
  | [] => .ok t
  | _ => .error .unexpected

/-- `substitute_typevars` for every variant: identity on primitives/literals,
typevar replacement on bare unresolved structs, generic-instance promotion on
generic classes/aliases (`EnumType` inherits the identity from `StructType`;
already-instantiated generics return themselves), recursion into composite
children, wrapper rebuilding — and the broken `TableType.substitute_typevars`,
which subscripts the imported dataclasses `field` function and then calls
`replace` with a `fields` keyword that is not a field, raising `TypeError`. -/
def substituteF (I : Interp) (tv : List (String × RT)) (t : RT) : Res RT :=
  match t with
  | .prim _ => .ok t
  | .litStr _ => .ok t
  | .litInt _ => .ok t
  | .litBool _ => .ok t
  | .strukt n =>
      (match List.lookup n tv with
       | some v => .ok v
       | none => .ok t)
  | .cls n d =>
      if d.generics.isEmpty then .ok t
      else
        let fa := filterTypevarsF tv d.generics
        if fa.2 then mkGenericClassF n d fa.1 else .ok t
  | .aliasT n d _ =>
      if d.generics.isEmpty then .ok t
      else
        let fa := filterTypevarsF tv d.generics
        if fa.2 then mkGenericAliasF I n d fa.1 else .ok t
  | .enum _ _ _ => .ok t
  | .genericStruct _ _ => .ok t
  | .genericClass _ _ _ => .ok t
  | .genericAlias _ _ _ _ => .ok t
  | .genericEnum _ _ _ _ => .ok t
  | .union es o => do
      let es' ← es.mapM (I.substitute tv)
      .ok (.union es' o)
  | .inter es o => do
      let es' ← es.mapM (I.substitute tv)
      .ok (.inter es' o)
  | .tupl es => do
      let es' ← es.mapM (I.substitute tv)
      .ok (.tupl es')
  | .table _ _ => .error .runtime
  | .func ps r => do
      let ps' ← ps.mapM (fun p => do
        let t' ← I.substitute tv p.2
        .ok (p.1, t'))
      let r' ← (match r with
        | none => .ok (none : Option RT)
        | some rt => do
            let x ← I.substitute tv rt
            .ok (some x))
      .ok (.func ps' r')
  | .optional i => do
      let i' ← I.substitute tv i
      .ok (.optional i')
  | .array e => do
      let e' ← I.substitute tv e
      .ok (.array e')
  | .variadic e => do
      let e' ← I.substitute tv e
      .ok (.variadic e')

/-- The depth-zero interpreter: every entry stands for `RecursionError`. -/
def errInterp : Interp where
  parse _ := .error .runtime
  parseType _ := .error .runtime
  parsePrimary _ := .error .runtime
  parseSuffixLoop _ _ := .error .runtime
  parseBasic _ := .error .runtime
  parseTypeList _ := .error .runtime
  parseSepElems _ _ := .error .runtime
  parseParams _ := .error .runtime
  parseTableItems _ := .error .runtime
  substitute _ _ := .error .runtime

/-- One recursion level on top of `I`. -/
def interpStep (cat : Catalog) (I : Interp) : Interp where
  parse := parseTopF I
  parseType := parseTypeF I
  parsePrimary := parsePrimaryF I
  parseSuffixLoop := parseSuffixLoopF I
  parseBasic := parseBasicF I cat
  parseTypeList := parseTypeListF I
  parseSepElems := parseSepElemsF I
  parseParams := parseParamsF I
  parseTableItems := parseTableItemsF I
  substitute := substituteF I

/-- The fuel-indexed interpreter family over a fixed catalog. -/
def interp (cat : Catalog) : Nat → Interp
  | 0 => errInterp
  | f + 1 => interpStep cat (interp cat f)

/-- `parse(text)` against a catalog, at recursion depth `fuel`. -/
def parseE (cat : Catalog) (fuel : Nat) (s : String) : Res RT :=
  (interp cat fuel).parse s

/-! ## Member resolution (`.members` / `.bases` views) -/

/-- Whether `hasattr(x, "members")` holds: the struct family, intersections,
and wrappers whose wrapped value has the attribute (attribute access forwards);
unions, tuples, tables, functions, primitives and literals do not have it. -/
def hasMembersAttr : RT → Bool
  | .strukt _ => true
  | .cls _ _ => true
  | .aliasT _ _ _ => true
  | .enum _ _ _ => true
  | .genericStruct _ _ => true
  | .genericClass _ _ _ => true
  | .genericAlias _ _ _ _ => true
  | .genericEnum _ _ _ _ => true
  | .inter _ _ => true
  | .optional i => hasMembersAttr i
  | .array e => hasMembersAttr e
  | .variadic e => hasMembersAttr e
  | _ => false

/-- Hydration of one raw member record through `from_member`. -/
def hydrateMemberF (I : Interp) (ctx : List (String × RT)) : Member → Res DocMember
  | .fn fm => fromMemberFnF I ctx fm
  | .fld fm => fromMemberFF I ctx fm

/-- The final hydration step of the members comprehension: a raw record goes
through `from_member`, an inherited already-documented member passes through. -/
def hydrateAttrF (I : Interp) (ctx : List (String × RT)) : MemberAttr → Res DocMember
  | .raw m => hydrateMemberF I ctx m
  | .doc dm => .ok dm

/-- `ClassType.members`: resolve the declared bases with `parser.parse`, fold
the resolved members of each base into `attrs` iterating the bases in
**reversed** declaration order (bases without a `members` attribute are
skipped by the `hasattr` guard), then overlay the class's own raw member dict,
then hydrate: raw records through `from_member`, inherited documented members
passed through. `recM` is the member-resolution recursion. -/
def classMembersCore (I : Interp) (recM : RT → Res (List (String × DocMember)))
    (d : ClassDecl) : Res (List (String × DocMember)) := do
  let bs ← d.bases.mapM I.parse
  let attrs ← bs.reverse.foldlM (fun acc b =>
      if hasMembersAttr b then do
        let ms ← recM b
        .ok (ms.foldl (fun a p => dictInsert a p.1 (MemberAttr.doc p.2)) acc)
      else .ok acc) ([] : List (String × MemberAttr))
  let attrs2 := d.members.foldl (fun a p => dictInsert a p.1 (MemberAttr.raw p.2)) attrs
  attrs2.mapM (fun p => do
    let dm ← hydrateAttrF I [] p.2
    .ok (p.1, dm))

/-- `GenericClassInstanceType.members`: like `ClassType.members` but bases are
substituted through the typevar context, the base loop has no `hasattr` guard
(a base without members raises `AttributeError`), and own raw members are
hydrated with the context. -/
def genericClassMembersCore (I : Interp) (recM : RT → Res (List (String × DocMember)))
    (d : ClassDecl) (args : List RT) : Res (List (String × DocMember)) := do
  let ctx := zipCtxF d.generics args
  let bs ← d.bases.mapM (fun b => do
    let t ← I.parse b
    I.substitute ctx t)
  let attrs ← bs.reverse.foldlM (fun acc b => do
      let ms ← recM b
      .ok (ms.foldl (fun a p => dictInsert a p.1 (MemberAttr.doc p.2)) acc))
    ([] : List (String × MemberAttr))
  let attrs2 := d.members.foldl (fun a p => dictInsert a p.1 (MemberAttr.raw p.2)) attrs
  attrs2.mapM (fun p => do
    let dm ← hydrateAttrF I ctx p.2
    .ok (p.1, dm))

/-- `IntersectionType.members`: `res |= el.members` per element, the
`AttributeError` of an element without members caught and skipped. -/
def interMembersCore (recM : RT → Res (List (String × DocMember)))
    (es : List RT) : Res (List (String × DocMember)) :=
  es.foldlM (fun acc el =>
    if hasMembersAttr el then do
      let ms ← recM el
      .ok (ms.foldl (fun a p => dictInsert a p.1 p.2) acc)
    else .ok acc) []

/-- The `members` view of any resolved type, fuel-indexed (inheritance chains
recurse through base classes). A bare unresolved struct and a bare generic
struct instance have no typedef and yield the empty mapping; an alias
delegates to its resolved underlying type when that has members; an enum uses
the plain member dict of its declaration; generic alias/enum instances hydrate
their declaration's member list through the typevar context
(`GenericStructInstanceType.members` takes MRO precedence); wrappers forward;
every other variant has no `members` attribute (`AttributeError`). -/
def membersOfF (I : Interp) : Nat → RT → Res (List (String × DocMember))
  | 0, _ => .error .runtime
  | f + 1, t =>
    match t with
    | .strukt _ => .ok []
    | .genericStruct _ _ => .ok []
    | .cls _ d => classMembersCore I (membersOfF I f) d
    | .genericClass _ d args => genericClassMembersCore I (membersOfF I f) d args
    | .aliasT _ _ ty => if hasMembersAttr ty then membersOfF I f ty else .ok []
    | .enum _ d _ => membersDictF I [] d.members
    | .genericAlias _ d _ args => membersDictF I (zipCtxF d.generics args) d.members
    | .genericEnum _ d _ args => membersDictF I (zipCtxF d.generics args) d.members
    | .optional i => membersOfF I f i
    | .array e => membersOfF I f e
    | .variadic e => membersOfF I f e
    | .inter es _ => interMembersCore (membersOfF I f) es
    | _ => .error .runtime

/-- The `members` view reached through `parse`: resolution depth `fuel` over
catalog `cat`. -/
def membersE (cat : Catalog) (fuel : Nat) (t : RT) : Res (List (String × DocMember)) :=
  membersOfF (interp cat fuel) fuel t

/-! ## Python structural equality (`==`)

All variants except the wrappers are frozen dataclasses, whose generated
`__eq__` compares the compare-enabled fields when both sides have the **same
class** (`parser` and the raw `typedef` declarations are `compare=False`, as
are the eagerly computed `typ` delegates of aliases and enums); nested
containers compare elementwise with `==` again. The wrapper classes
(`OptionalType`, `ArrayType`, `VariadicType`) re-assign a **freshly created**
dynamic class to every instance in `__init__`, so the dataclass `__eq__` they
inherit sees different classes on any two distinct instances, returns
`NotImplemented`, and Python falls back to identity: two separately
constructed wrapper values are never equal. `pyEqF` models `==` between two
values that share no subobjects (e.g. the results of two separate `parse`
calls), which makes wrapper-vs-wrapper comparison `false`. -/

def pyEqF : Nat → RT → RT → Bool
  | 0, _, _ => false
  | f + 1, a, b =>
    match a, b with
    | .prim n, .prim n' => n == n'
    | .litStr v, .litStr v' => v == v'
    | .litInt v, .litInt v' => v == v'
    | .litBool v, .litBool v' => v == v'
    | .strukt n, .strukt n' => n == n'
    | .cls n _, .cls n' _ => n == n'
    | .aliasT n _ _, .aliasT n' _ _ => n == n'
    | .enum n _ _, .enum n' _ _ => n == n'
    | .union es o, .union es' o' =>
        es.length == es'.length &&
        ((List.zip es es').all fun p => pyEqF f p.1 p.2) && o == o'
    | .inter es o, .inter es' o' =>
        es.length == es'.length &&
        ((List.zip es es').all fun p => pyEqF f p.1 p.2) && o == o'
    | .tupl es, .tupl es' =>
        es.length == es'.length &&
        ((List.zip es es').all fun p => pyEqF f p.1 p.2)
    | .table fs o, .table fs' o' =>
        fs.length == fs'.length &&
        ((List.zip fs fs').all fun p =>
          (match p.1.1, p.2.1 with
           | .name s, .name s' => s == s'
           | .typ x, .typ y => pyEqF f x y
           | _, _ => false) && pyEqF f p.1.2 p.2.2) && o == o'
    | .func ps r, .func ps' r' =>
        ps.length == ps'.length &&
        ((List.zip ps ps').all fun p => p.1.1 == p.2.1 && pyEqF f p.1.2 p.2.2) &&
        (match r, r' with
         | none, none => true
         | some x, some y => pyEqF f x y
         | _, _ => false)
    | .genericStruct n as, .genericStruct n' as' =>
        n == n' && (as.length == as'.length &&
          ((List.zip as as').all fun p => pyEqF f p.1 p.2))
    | .genericClass n _ as, .genericClass n' _ as' =>
        n == n' && (as.length == as'.length &&
          ((List.zip as as').all fun p => pyEqF f p.1 p.2))
    | .genericAlias n _ _ as, .genericAlias n' _ _ as' =>
        n == n' && (as.length == as'.length &&
          ((List.zip as as').all fun p => pyEqF f p.1 p.2))
    | .genericEnum n _ _ as, .genericEnum n' _ _ as' =>
        n == n' && (as.length == as'.length &&
          ((List.zip as as').all fun p => pyEqF f p.1 p.2))
    | _, _ => false

/-! ## The stringifier (`__str__`) -/

/-- Equality used by the `TableType.fields` dict on keys: field-name strings
by value, key types by Python `==` (`pyEqF`, since distinct key objects within
one `_fields` tuple share no subobjects). -/
def tableKeyEqF (f : Nat) : TableKey → TableKey → Bool
  | .name s, .name s' => s == s'
  | .typ a, .typ b => pyEqF f a b
  | _, _ => false

/-- Insertion into the `TableType.fields` dict (existing key keeps position,
value overwritten). -/
def tableDictInsertF (f : Nat) (l : List (TableKey × RT)) (k : TableKey) (v : RT) :
    List (TableKey × RT) :=
  match l with
  | [] => [(k, v)]
  | (k', v') :: rest =>
      if tableKeyEqF f k' k then (k', v) :: rest
      else (k', v') :: tableDictInsertF f rest k v

/-- `__str__` of every variant, fuel-indexed. Notable details from the
source: a `TableType` renders its `fields` dict with all name-keyed fields
**before** all type-keyed fields; `UnionType` joins with `|`,
`IntersectionType` with `" & "`, `TupleType` and generic argument lists with
`,`; a function parameter that is a `VariadicType` instance of `AnyType`
renders as a bare `...` (dropping any parameter name); `Optional`/`Variadic`
parenthesize a wrapped function instance, `Array` parenthesizes a wrapped
function instance with returns. -/
def toTextF : Nat → RT → Option String
  | 0, _ => none
  | f + 1, t =>
    match t with
    | .prim n => some n
    | .litStr v => some ("\"" ++ v ++ "\"")
    | .litInt v => some (toString v)
    | .litBool b => some (if b then "true" else "false")
    | .strukt n => some n
    | .cls n _ => some n
    | .aliasT n _ _ => some n
    | .enum n _ _ => some n
    | .genericStruct n args => do
        let ss ← args.mapM (toTextF f)
        some (n ++ "<" ++ String.intercalate "," ss ++ ">")
    | .genericClass n _ args => do
        let ss ← args.mapM (toTextF f)
        some (n ++ "<" ++ String.intercalate "," ss ++ ">")
    | .genericAlias n _ _ args => do
        let ss ← args.mapM (toTextF f)
        some (n ++ "<" ++ String.intercalate "," ss ++ ">")
    | .genericEnum n _ _ args => do
        let ss ← args.mapM (toTextF f)
        some (n ++ "<" ++ String.intercalate "," ss ++ ">")
    | .union es o => do
        let ss ← es.mapM (toTextF f)
        some ("(" ++ String.intercalate "|" ss ++ (if o then "..." else "") ++ ")")
    | .inter es o => do
        let ss ← es.mapM (toTextF f)
        some ("(" ++ String.intercalate " & " ss ++ (if o then "..." else "") ++ ")")
    | .tupl es => do
        let ss ← es.mapM (toTextF f)
        some ("(" ++ String.intercalate "," ss ++ ")")
    | .table flds o =>
        let dict := flds.foldl (fun a p => tableDictInsertF f a p.1 p.2) []
        if dict.isEmpty then some (if o then "\x7b...\x7d" else "\x7b\x7d")
        else do
          let named ← (dict.filterMap (fun p =>
              match p.1 with | .name s => some (s, p.2) | _ => none)).mapM
            (fun p => do
              let vs ← toTextF f p.2
              some (p.1 ++ ": " ++ vs))
          let typed ← (dict.filterMap (fun p =>
              match p.1 with | .typ k => some (k, p.2) | _ => none)).mapM
            (fun p => do
              let ks ← toTextF f p.1
              let vs ← toTextF f p.2
              some ("[" ++ ks ++ "]: " ++ vs))
          some ("\x7b " ++
            String.intercalate ", " (named ++ typed ++ (if o then ["..."] else [])) ++
            " \x7d")
    | .func ps r => do
        let ss ← ps.mapM (fun p =>
          if isVariadicInst p.2 && isAnyInst ((elementTypeAttr p.2).getD p.2) then
            some "..."
          else
            match p.1 with
            | some n => do
                let s ← toTextF f p.2
                some (n ++ ": " ++ s)
            | none => toTextF f p.2)
        let base := "fun(" ++ String.intercalate ", " ss ++ ")"
        match r with
        | some rt => do
            let rs ← toTextF f rt
            some (base ++ " -> " ++ rs)
        | none => some base
    | .optional i => do
        let s ← toTextF f i
        some (if isFuncInst i then "(" ++ s ++ ")?" else s ++ "?")
    | .array e => do
        let s ← toTextF f e
        some (if isFuncInst e && (retsAttr e).isSome then "(" ++ s ++ ")[]" else s ++ "[]")
    | .variadic e => do
        let s ← toTextF f e
        some (if isFuncInst e then "(" ++ s ++ ") ..." else s ++ " ...")

/-! ## Observation helpers and supporting lemmas -/

/-- Whether a value is literally an `OptionalType` construction (not merely an
instance through dynamic subclassing). -/
def isOptionalCtorB : RT → Bool
  | .optional _ => true
  | _ => false

/-- Whether a value is literally a `UnionType` construction. -/
def isUnionCtor : RT → Bool
  | .union _ _ => true
  | _ => false

/-- Whether a value is literally an `IntersectionType` construction. -/
def isInterCtor : RT → Bool
  | .inter _ _ => true
  | _ => false

/-- The element contribution of a union element to the flattened list. -/
def expandU : RT → List RT
  | .union es _ => es
  | e => [e]

/-- The nested `omitted` contribution of a union element. -/
def unOm : RT → Bool
  | .union _ o => o
  | _ => false

/-- The element contribution of an intersection element to the flattened list. -/
def expandI : RT → List RT
  | .inter es _ => es
  | e => [e]

/-- The nested `omitted` contribution of an intersection element. -/
def interOm : RT → Bool
  | .inter _ o => o
  | _ => false

/-- `Optional` unwrapping as performed by the union hydrator's hoisting. -/
def stripOpt : RT → RT
  | .optional i => i
  | e => e

/-- Elements on which the optionality-hoisting branch of
`TreeHydrator.union_type` behaves as the specification describes: not an
instance of `UnionType`, and an instance of `OptionalType` only by being a
literal `OptionalType` construction whose inner value is not itself an
optional instance. -/
def hoistOKElem : RT → Bool
  | .union _ _ => false
  | .optional i => !isUnionInst i && !isOptionalInst i
  | e => !isUnionInst e && !isOptionalInst e

theorem resBindOk {α β : Type} (a : α) (f : α → Res β) :
    (Except.ok a : Res α) >>= f = f a := rfl

theorem resBindErr {α β : Type} (e : PErr) (f : α → Res β) :
    (Except.error e : Res α) >>= f = .error e := rfl

theorem isUnionCtor_shape {e : RT} (h : isUnionCtor e = true) :
    ∃ es o, e = RT.union es o := by
  cases e <;> simp_all [isUnionCtor]

theorem isInterCtor_shape {e : RT} (h : isInterCtor e = true) :
    ∃ es o, e = RT.inter es o := by
  cases e <;> simp_all [isInterCtor]

theorem expandU_plain {e : RT} (h : isUnionInst e = false) : expandU e = [e] := by
  cases e <;> simp_all [isUnionInst, expandU]

theorem unOm_plain {e : RT} (h : isUnionInst e = false) : unOm e = false := by
  cases e <;> simp_all [isUnionInst, unOm]

theorem expandI_plain {e : RT} (h : isInterInst e = false) : expandI e = [e] := by
  cases e <;> simp_all [isInterInst, expandI]

theorem interOm_plain {e : RT} (h : isInterInst e = false) : interOm e = false := by
  cases e <;> simp_all [isInterInst, interOm]

theorem unionTypeH_fold (items : List RT) (acc : List RT) (om0 : Bool)
    (h : ∀ e ∈ items, isUnionCtor e = true ∨ (isUnionInst e = false ∧ isOptionalInst e = false)) :
    items.foldl
      (fun acc sub =>
        if isUnionInst sub then
          (acc.1 ++ (elemsAttr sub).getD [], acc.2.1 || (omittedAttr sub).getD false, acc.2.2)
        else if isOptionalInst sub then
          (acc.1 ++ [(innerAttr sub).getD sub], acc.2.1, true)
        else (acc.1 ++ [sub], acc.2.1, acc.2.2)) (acc, om0, false)
      = (acc ++ items.flatMap expandU, om0 || items.any unOm, false) := by
  induction items generalizing acc om0 with
  | nil => simp
  | cons e rest ih =>
    have hrest : ∀ x ∈ rest, isUnionCtor x = true ∨ (isUnionInst x = false ∧ isOptionalInst x = false) :=
      fun x hx => h x (by simp [hx])
    rcases h e (by simp) with hu | ⟨h1, h2⟩
    · obtain ⟨es, o, rfl⟩ := isUnionCtor_shape hu
      simp only [List.foldl_cons, isUnionInst, elemsAttr, omittedAttr, Option.getD_some, if_true]
      rw [ih _ _ hrest]
      simp [expandU, unOm, Bool.or_assoc]
    · simp only [List.foldl_cons, h1, h2, Bool.false_eq_true, if_false]
      rw [ih _ _ hrest]
      simp [expandU_plain h1, unOm_plain h1]

theorem intersectionTypeH_fold (items : List RT) (acc : List RT) (om0 : Bool)
    (h : ∀ e ∈ items, isInterCtor e = true ∨ isInterInst e = false) :
    items.foldl
      (fun acc sub =>
        if isInterInst sub then
          (acc.1 ++ (elemsAttr sub).getD [], acc.2 || (omittedAttr sub).getD false)
        else (acc.1 ++ [sub], acc.2)) (acc, om0)
      = (acc ++ items.flatMap expandI, om0 || items.any interOm) := by
  induction items generalizing acc om0 with
  | nil => simp
  | cons e rest ih =>
    have hrest : ∀ x ∈ rest, isInterCtor x = true ∨ isInterInst x = false :=
      fun x hx => h x (by simp [hx])
    rcases h e (by simp) with hi | h1
    · obtain ⟨es, o, rfl⟩ := isInterCtor_shape hi
      simp only [List.foldl_cons, isInterInst, elemsAttr, omittedAttr, Option.getD_some, if_true]
      rw [ih _ _ hrest]
      simp [expandI, interOm, Bool.or_assoc]
    · simp only [List.foldl_cons, h1, Bool.false_eq_true, if_false]
      rw [ih _ _ hrest]
      simp [expandI_plain h1, interOm_plain h1]

/-! ## Claims -/

/-- **C6.** `Optional` is idempotent under the hydrator:
`TreeHydrator.optional_type` leaves an already-optional value unchanged, so
`Optional(Optional(x)) == Optional(x)` — wrapping an `OptionalType`
construction yields that same value, and the wrap operation is idempotent on
every resolved type. -/
theorem c6_optional_idempotent (x : RT) :
    optionalTypeH (RT.optional x) = RT.optional x ∧
    optionalTypeH (optionalTypeH x) = optionalTypeH x := by
  refine ⟨by simp [optionalTypeH, isOptionalInst], ?_⟩
  by_cases h : isOptionalInst x
  · simp [optionalTypeH, h]
  · simp [optionalTypeH, h, isOptionalInst]

/-- **C10, counterexample.** A parsed union whose element list contains an
`Optional` element does **not** always hoist the optionality: for the input
`((string|number)?|boolean)` the optional element wraps a union, which the
dynamic subclassing makes an *instance of* `UnionType`, so the flattening
branch fires first, the inner elements are spliced in, and the optionality is
silently dropped — the result is a bare `Union`, not an `Optional`. -/
theorem c10_counterexample :
    parseE {} 50 "((string|number)?|boolean)" =
      .ok (RT.union [RT.prim "string", RT.prim "number", RT.prim "boolean"] false) ∧
    unionTypeH [RT.optional (RT.union [RT.prim "string", RT.prim "number"] false),
        RT.prim "boolean"] false =
      RT.union [RT.prim "string", RT.prim "number", RT.prim "boolean"] false ∧
    isOptionalCtorB (RT.union [RT.prim "string", RT.prim "number", RT.prim "boolean"] false)
      = false :=
  ⟨rfl, rfl, rfl⟩

/-- Case analysis on a hoisting-benign element: a literal `Optional` wrapper
around a non-union non-optional value, or a plain element. -/
theorem hoistOK_cases {e : RT} (h : hoistOKElem e = true) :
    (∃ i, e = RT.optional i ∧ isUnionInst i = false ∧ isOptionalInst i = false) ∨
    (isUnionInst e = false ∧ isOptionalInst e = false ∧ isOptionalCtorB e = false) := by
  cases e <;>
    simp_all [hoistOKElem, isUnionInst, isOptionalInst, isOptionalCtorB]

theorem stripOpt_plain {e : RT} (h : isOptionalCtorB e = false) : stripOpt e = e := by
  cases e <;> simp_all [isOptionalCtorB, stripOpt]

theorem isOptionalCtorB_of_not_inst {e : RT} (h : isOptionalInst e = false) :
    isOptionalCtorB e = false := by
  cases e <;> simp_all [isOptionalInst, isOptionalCtorB]

theorem hoistFold (its : List RT) (acc : List RT) (om0 opt0 : Bool)
    (h : ∀ e ∈ its, hoistOKElem e = true) :
    its.foldl
      (fun acc sub =>
        if isUnionInst sub then
          (acc.1 ++ (elemsAttr sub).getD [], acc.2.1 || (omittedAttr sub).getD false, acc.2.2)
        else if isOptionalInst sub then
          (acc.1 ++ [(innerAttr sub).getD sub], acc.2.1, true)
        else (acc.1 ++ [sub], acc.2.1, acc.2.2)) (acc, om0, opt0)
      = (acc ++ its.map stripOpt, om0, opt0 || its.any isOptionalCtorB) := by
  induction its generalizing acc om0 opt0 with
  | nil => simp
  | cons e rest ih =>
    have hrest : ∀ x ∈ rest, hoistOKElem x = true := fun x hx => h x (by simp [hx])
    rcases hoistOK_cases (h e (by simp)) with ⟨i, rfl, hu, _⟩ | ⟨h1, h2, h3⟩
    · rw [List.foldl_cons]
      have hu' : isUnionInst (RT.optional i) = false := by simpa [isUnionInst] using hu
      simp only [hu', Bool.false_eq_true, if_false, isOptionalInst, if_true, innerAttr,
        Option.getD_some]
      rw [ih _ _ _ hrest]
      simp [stripOpt, isOptionalCtorB]
    · rw [List.foldl_cons]
      simp only [h1, h2, Bool.false_eq_true, if_false]
      rw [ih _ _ _ hrest]
      simp [stripOpt_plain h3, h3]

/-- **C10, amended.** When every element of a parsed union's element list is
benign for hoisting — not an instance of `UnionType`, and optional only by
being a literal `OptionalType` wrapper around a non-optional value — and at
least one element is such an `Optional`, the hydrator returns an `Optional`
wrapping a `Union` of the elements with each `Optional` wrapper replaced by
its inner type (the `omitted` flag passing through), and that union directly
contains no `Optional` element. An `Optional` that (transitively) wraps a
`Union` is instead flattened as a union and its optionality is dropped. -/
theorem c10_amended (items : List RT) (om : Bool)
    (h2 : 2 ≤ items.length)
    (hall : ∀ e ∈ items, hoistOKElem e = true)
    (hopt : ∃ e ∈ items, isOptionalCtorB e = true) :
    unionTypeH items om = RT.optional (RT.union (items.map stripOpt) om) ∧
    ∀ e ∈ items.map stripOpt, isOptionalCtorB e = false := by
  obtain ⟨a, b, rest, hshape⟩ : ∃ a b rest, items = a :: b :: rest := by
    match items, h2 with
    | a :: b :: rest, _ => exact ⟨a, b, rest, rfl⟩
  constructor
  · subst hshape
    show (if _ then _ else _) = _
    rw [hoistFold _ [] om false hall]
    have hany : (a :: b :: rest).any isOptionalCtorB = true := by
      rcases hopt with ⟨e, hmem, hctor⟩
      exact List.any_eq_true.mpr ⟨e, hmem, hctor⟩
    simp [hany]
  · intro e hmem
    rcases List.mem_map.mp hmem with ⟨x, hx, hsx⟩
    subst hsx
    rcases hoistOK_cases (hall x hx) with ⟨i, rfl, _, hio⟩ | ⟨_, h2', _⟩
    · exact isOptionalCtorB_of_not_inst hio
    · rw [stripOpt_plain (isOptionalCtorB_of_not_inst h2')]
      exact isOptionalCtorB_of_not_inst h2'

/-- **C10, amended, witness.** The amended hoisting behaviour at the concrete
element list `[Optional(String), Boolean]`. -/
theorem c10_amended_witness :
    unionTypeH [RT.optional (RT.prim "string"), RT.prim "boolean"] false =
      RT.optional (RT.union [RT.prim "string", RT.prim "boolean"] false) := by
  have h := c10_amended [RT.optional (RT.prim "string"), RT.prim "boolean"] false
    (by decide)
    (by intro e he; fin_cases he <;> rfl)
    ⟨RT.optional (RT.prim "string"), by simp, rfl⟩
  exact h.1

/-- **C5.** Flattening: a union (resp. intersection) reduction collapses a
single-element list to the element itself; with at least two elements, every
element that is a literal same-kind composite is flattened in place — its
elements concatenated where it stood — and the resulting `omitted` flag is the
logical OR of the outer flag and all nested flags. (Stated for element lists
whose members are literal same-kind composites or plain elements; elements
that are merely *instances* of the composite kind through wrapper subclassing
are flattened too, but with the wrapper stripped.) -/
theorem c5_flattening :
    (∀ (x : RT) (om : Bool), unionTypeH [x] om = x ∧ intersectionTypeH [x] om = x) ∧
    (∀ (items : List RT) (om : Bool), 2 ≤ items.length →
      (∀ e ∈ items, isUnionCtor e = true ∨ (isUnionInst e = false ∧ isOptionalInst e = false)) →
      unionTypeH items om = RT.union (items.flatMap expandU) (om || items.any unOm)) ∧
    (∀ (items : List RT) (om : Bool), 2 ≤ items.length →
      (∀ e ∈ items, isInterCtor e = true ∨ isInterInst e = false) →
      intersectionTypeH items om = RT.inter (items.flatMap expandI) (om || items.any interOm)) := by
  refine ⟨fun x om => ⟨rfl, rfl⟩, ?_, ?_⟩
  · intro items om h2 hall
    obtain ⟨a, b, rest, rfl⟩ : ∃ a b rest, items = a :: b :: rest := by
      match items, h2 with
      | a :: b :: rest, _ => exact ⟨a, b, rest, rfl⟩
    show (if _ then _ else _) = _
    rw [unionTypeH_fold _ [] om hall]
    simp
  · intro items om h2 hall
    obtain ⟨a, b, rest, rfl⟩ : ∃ a b rest, items = a :: b :: rest := by
      match items, h2 with
      | a :: b :: rest, _ => exact ⟨a, b, rest, rfl⟩
    show RT.inter _ _ = _
    rw [intersectionTypeH_fold _ [] om hall]
    simp

/-- **C5, witness.** Flattening at concrete element lists:
`Union([Union([a,b]),c]) == Union([a,b,c])`, and the intersection analogue
carrying a nested `omitted` flag. -/
theorem c5_flattening_witness :
    unionTypeH [RT.union [RT.prim "a", RT.prim "b"] false, RT.prim "c"] false =
      RT.union [RT.prim "a", RT.prim "b", RT.prim "c"] false ∧
    intersectionTypeH [RT.inter [RT.prim "a", RT.prim "b"] true, RT.prim "c"] false =
      RT.inter [RT.prim "a", RT.prim "b", RT.prim "c"] true ∧
    unionTypeH [RT.prim "a"] true = RT.prim "a" := by
  refine ⟨?_, ?_, (c5_flattening.1 (RT.prim "a") true).1⟩
  · exact c5_flattening.2.1 [RT.union [RT.prim "a", RT.prim "b"] false, RT.prim "c"] false
      (by decide) (by decide)
  · exact c5_flattening.2.2 [RT.inter [RT.prim "a", RT.prim "b"] true, RT.prim "c"] false
      (by decide) (by decide)

/-- **C9.** Generic-instance arity: when the base's declaration is known,
construction with more type arguments than declared generic parameters is
rejected (the `__post_init__` assertion raises), so every successfully
constructed generic class/alias/enum instance satisfies
`len(type_args) <= len(generics)`. -/
theorem c9_generic_arity :
    (∀ (n : String) (d : ClassDecl) (args : List RT) (v : RT),
        mkGenericClassF n d args = .ok v → args.length ≤ d.generics.length) ∧
    (∀ (I : Interp) (n : String) (d : AliasDecl) (args : List RT) (v : RT),
        mkGenericAliasF I n d args = .ok v → args.length ≤ d.generics.length) ∧
    (∀ (I : Interp) (n : String) (d : EnumDecl) (args : List RT) (v : RT),
        mkGenericEnumF I n d args = .ok v → args.length ≤ d.generics.length) ∧
    (∀ (n : String) (d : ClassDecl) (args : List RT),
        d.generics.length < args.length → mkGenericClassF n d args = .error .runtime) := by
  refine ⟨?_, ?_, ?_, ?_⟩
  · intro n d args v hv
    by_cases h : args.length ≤ d.generics.length
    · exact h
    · exfalso
      simp [mkGenericClassF, h] at hv
  · intro I n d args v hv
    by_cases h : args.length ≤ d.generics.length
    · exact h
    · exfalso
      unfold mkGenericAliasF at hv
      cases hX : (match d.typ with
        | some s => I.parse s
        | none => (.error .runtime : Res RT)) with
      | error e => rw [hX, resBindErr] at hv; exact Except.noConfusion hv
      | ok t => rw [hX, resBindOk, if_neg h] at hv; exact Except.noConfusion hv
  · intro I n d args v hv
    by_cases h : args.length ≤ d.generics.length
    · exact h
    · exfalso
      unfold mkGenericEnumF at hv
      cases hX : enumDelegateF I (zipCtxF d.generics args) d with
      | error e => rw [hX, resBindErr] at hv; exact Except.noConfusion hv
      | ok u => rw [hX, resBindOk, if_neg h] at hv; exact Except.noConfusion hv
  · intro n d args h
    simp [mkGenericClassF, Nat.not_le.mpr h]

/-- A concrete generic class: `class G<K, T>` with field `val: T`. -/
def declG : ClassDecl :=
  { name := "G", generics := [{ name := "K" }, { name := "T" }],
    members := [("val", .fld { name := "val", typ := "T" })] }

/-- Catalog holding only `G`. -/
def catG : Catalog := { classes := [("G", declG)] }

/-- **C9, witness.** A partial instantiation `G<string>` of the two-parameter
class `G` is built and satisfies the arity invariant, and the three-argument
instantiation is rejected at construction. -/
theorem c9_generic_arity_witness :
    mkGenericClassF "G" declG [RT.prim "string"] =
      .ok (RT.genericClass "G" declG [RT.prim "string"]) ∧
    ([RT.prim "string"] : List RT).length ≤ declG.generics.length ∧
    mkGenericClassF "G" declG [RT.prim "string", RT.prim "integer", RT.prim "boolean"] =
      .error .runtime :=
  ⟨rfl, c9_generic_arity.1 "G" declG [RT.prim "string"] _ rfl,
    c9_generic_arity.2.2.2 "G" declG [RT.prim "string", RT.prim "integer", RT.prim "boolean"]
      (by decide)⟩

/-- Positional matching of an instantiation argument against the declared
generic parameter at the same index: the argument is a bare unresolved
`StructType` whose name is the parameter's name. -/
def argMatches (gens : List LuaTypeVar) (args : List RT) (j : Nat) : Prop :=
  ∃ g, gens.get? j = some g ∧ args.get? j = some (RT.strukt g.name)

theorem allMatchF_true (gens : List LuaTypeVar) (args : List RT) (i : Nat)
    (h : ∀ j, j < args.length →
      ∃ g, gens.get? (i + j) = some g ∧ args.get? j = some (RT.strukt g.name)) :
    allMatchF gens i args = .ok true := by
  induction args generalizing i with
  | nil => rfl
  | cons a as ih =>
    obtain ⟨g, hg, ha⟩ := h 0 (by simp)
    simp only [Nat.add_zero] at hg
    simp only [List.get?] at ha
    obtain rfl : a = RT.strukt g.name := by injection ha
    show allMatchF gens i (RT.strukt g.name :: as) = .ok true
    unfold allMatchF
    rw [hg]
    simp only [if_pos rfl]
    apply ih
    intro j hj
    obtain ⟨g', hg', ha'⟩ := h (j + 1) (by simpa using Nat.succ_lt_succ hj)
    refine ⟨g', ?_, ha'⟩
    rw [show i + 1 + j = i + (j + 1) by omega]
    exact hg'

theorem allMatchF_false (gens : List LuaTypeVar) (args : List RT) (i : Nat)
    (hlen : args.length + i ≤ gens.length)
    (hex : ∃ j, ∃ _ : j < args.length,
      ¬ ∃ g, gens.get? (i + j) = some g ∧ args.get? j = some (RT.strukt g.name)) :
    allMatchF gens i args = .ok false := by
  induction args generalizing i with
  | nil =>
    obtain ⟨j, hj, _⟩ := hex
    exact absurd hj (by simp)
  | cons a as ih =>
    have hi : i < gens.length := by simp at hlen; omega
    obtain ⟨g, hg⟩ : ∃ g, gens.get? i = some g := ⟨_, List.get?_eq_get hi⟩
    cases a with
    | strukt an =>
      show allMatchF gens i (RT.strukt an :: as) = .ok false
      unfold allMatchF
      rw [hg]
      by_cases hname : an = g.name
      · subst hname
        simp only [if_pos rfl]
        apply ih
        · simp at hlen ⊢; omega
        · obtain ⟨j, hj, hnm⟩ := hex
          cases j with
          | zero =>
            exact absurd ⟨g, by simpa using hg, by simp⟩ hnm
          | succ j' =>
            refine ⟨j', by simpa using Nat.lt_of_succ_lt_succ hj, fun ⟨g', hg', ha'⟩ => hnm ?_⟩
            refine ⟨g', ?_, by simpa using ha'⟩
            rw [show i + (j' + 1) = i + 1 + j' by omega]
            exact hg'
      · simp [hname]
    | prim n => rfl
    | litStr v => rfl
    | litInt v => rfl
    | litBool v => rfl
    | cls n d => rfl
    | aliasT n d t => rfl
    | enum n d t => rfl
    | union es o => rfl
    | inter es o => rfl
    | tupl es => rfl
    | table fs o => rfl
    | func ps r => rfl
    | genericStruct n as2 => rfl
    | genericClass n d as2 => rfl
    | genericAlias n d t as2 => rfl
    | genericEnum n d t as2 => rfl
    | optional x => rfl
    | array x => rfl
    | variadic x => rfl

/-- **C3.** `TreeHydrator.generic_struct_type`: (i) an unresolved base always
yields a `GenericStructInstance` carrying the supplied arguments; (ii) for a
resolved class/alias/enum base, if every argument is an unresolved struct
reference matching the declared generic parameter name at its position, the
bare base is returned unchanged (fewer arguments than parameters is legal);
(iii) if the arity is legal and at least one argument differs, the
kind-specific generic instance carrying the full ordered argument list is
built (for alias/enum bases, given the success of their eager post-init
re-hydration). -/
theorem c3_generic_instantiation :
    (∀ (I : Interp) (n : String) (args : List RT),
        genericAF I (RT.strukt n) args = .ok (RT.genericStruct n args)) ∧
    (∀ (I : Interp) (n : String) (d : ClassDecl) (args : List RT),
        (∀ j, j < args.length → argMatches d.generics args j) →
        genericAF I (RT.cls n d) args = .ok (RT.cls n d)) ∧
    (∀ (I : Interp) (n : String) (d : AliasDecl) (t : RT) (args : List RT),
        (∀ j, j < args.length → argMatches d.generics args j) →
        genericAF I (RT.aliasT n d t) args = .ok (RT.aliasT n d t)) ∧
    (∀ (I : Interp) (n : String) (d : EnumDecl) (t : RT) (args : List RT),
        (∀ j, j < args.length → argMatches d.generics args j) →
        genericAF I (RT.enum n d t) args = .ok (RT.enum n d t)) ∧
    (∀ (I : Interp) (n : String) (d : ClassDecl) (args : List RT),
        args.length ≤ d.generics.length →
        (∃ j, ∃ _ : j < args.length, ¬ argMatches d.generics args j) →
        genericAF I (RT.cls n d) args = .ok (RT.genericClass n d args)) ∧
    (∀ (I : Interp) (n : String) (d : AliasDecl) (t : RT) (args : List RT) (s : String)
        (tp tp' : RT),
        args.length ≤ d.generics.length →
        (∃ j, ∃ _ : j < args.length, ¬ argMatches d.generics args j) →
        d.typ = some s → I.parse s = .ok tp →
        I.substitute (zipCtxF d.generics args) tp = .ok tp' →
        genericAF I (RT.aliasT n d t) args = .ok (RT.genericAlias n d tp' args)) ∧
    (∀ (I : Interp) (n : String) (d : EnumDecl) (t : RT) (args : List RT) (u u' : RT),
        args.length ≤ d.generics.length →
        (∃ j, ∃ _ : j < args.length, ¬ argMatches d.generics args j) →
        enumDelegateF I (zipCtxF d.generics args) d = .ok u →
        I.substitute (zipCtxF d.generics args) u = .ok u' →
        genericAF I (RT.enum n d t) args = .ok (RT.genericEnum n d u' args)) := by
  have hm : ∀ (gens : List LuaTypeVar) (args : List RT),
      (∀ j, j < args.length → argMatches gens args j) →
      allMatchF gens 0 args = .ok true := by
    intro gens args h
    apply allMatchF_true
    intro j hj
    simpa [argMatches, Nat.zero_add] using h j hj
  have hf : ∀ (gens : List LuaTypeVar) (args : List RT),
      args.length ≤ gens.length →
      (∃ j, ∃ _ : j < args.length, ¬ argMatches gens args j) →
      allMatchF gens 0 args = .ok false := by
    intro gens args hlen hex
    apply allMatchF_false
    · simpa using hlen
    · obtain ⟨j, hj, hnm⟩ := hex
      exact ⟨j, hj, by simpa [argMatches] using hnm⟩
  refine ⟨fun I n args => rfl, ?_, ?_, ?_, ?_, ?_, ?_⟩
  · intro I n d args h
    simp only [genericAF, hm _ _ h, resBindOk, if_true]
  · intro I n d t args h
    simp only [genericAF, hm _ _ h, resBindOk, if_true]
  · intro I n d t args h
    simp only [genericAF, hm _ _ h, resBindOk, if_true]
  · intro I n d args hlen hex
    simp only [genericAF, hf _ _ hlen hex, resBindOk, Bool.false_eq_true, if_false,
      mkGenericClassF, if_pos hlen]
  · intro I n d t args s tp tp' hlen hex hts hp hs
    simp only [genericAF, hf _ _ hlen hex, resBindOk, Bool.false_eq_true, if_false,
      mkGenericAliasF, hts, hp, if_pos hlen, hs]
  · intro I n d t args u u' hlen hex hu hs
    simp only [genericAF, hf _ _ hlen hex, resBindOk, Bool.false_eq_true, if_false,
      mkGenericEnumF, hu, if_pos hlen, hs]

/-- **C3, witness.** Over the catalog holding `class G<K, T>`: parsing
`G<K,T>` returns the bare class, `G<string,T>` builds the generic instance
with both arguments, and an unknown base always builds a
`GenericStructInstance`. -/
theorem c3_generic_instantiation_witness :
    genericAF (interp catG 10) (RT.cls "G" declG) [RT.strukt "K", RT.strukt "T"] =
      .ok (RT.cls "G" declG) ∧
    genericAF (interp catG 10) (RT.cls "G" declG) [RT.prim "string", RT.strukt "T"] =
      .ok (RT.genericClass "G" declG [RT.prim "string", RT.strukt "T"]) ∧
    genericAF (interp catG 10) (RT.strukt "U") [RT.strukt "K"] =
      .ok (RT.genericStruct "U" [RT.strukt "K"]) := by
  refine ⟨?_, ?_, c3_generic_instantiation.1 (interp catG 10) "U" [RT.strukt "K"]⟩
  · apply c3_generic_instantiation.2.1
    intro j hj
    match j, hj with
    | 0, _ => exact ⟨{ name := "K" }, rfl, rfl⟩
    | 1, _ => exact ⟨{ name := "T" }, rfl, rfl⟩
    | j + 2, hj => exact absurd hj (by simp)
  · apply c3_generic_instantiation.2.2.2.2.1
    · decide
    · exact ⟨0, by simp, fun ⟨g, hg, ha⟩ => by
        simp only [declG] at hg
        injection hg with hg
        subst hg
        simp at ha⟩

/-- **C8.** The enum delegate: (i) it never reads the enum declaration's
(possibly truncated) summary `typ` string — changing that string leaves the
delegate computation unchanged; (ii) it is the `Union` of the individually
resolved types of the declaration's field members (function members filtered
out), in member-dict order, with `omitted = false`; (iii) the delegate stored
in a hydrated `EnumType` is exactly this synthesized union, rebuilt by
`__post_init__` on every construction (each resolution of the enum constructs
a fresh `EnumType`). -/
theorem c8_enum_delegate :
    (∀ (I : Interp) (d : EnumDecl) (s s' : Option String),
        enumDelegateF I [] { d with typ := s } = enumDelegateF I [] { d with typ := s' }) ∧
    (∀ (I : Interp) (ctx : List (String × RT)) (d : EnumDecl)
        (md : List (String × DocMember)),
        membersDictF I ctx d.members = .ok md →
        enumDelegateF I ctx d =
          .ok (RT.union (md.filterMap fun p =>
            match p.2 with | .fld t _ => some t | _ => none) false)) ∧
    (∀ (I : Interp) (cat : Catalog) (full n : String) (d : EnumDecl) (u : RT),
        structTypeAF I cat full = .ok (RT.enum n d u) →
        enumDelegateF I [] d = .ok u) := by
  refine ⟨fun I d s s' => rfl, ?_, ?_⟩
  · intro I ctx d md h
    unfold enumDelegateF
    rw [h, resBindOk]
  · intro I cat full n d u h
    unfold structTypeAF at h
    split at h
    · exact absurd h (by simp)
    · split at h
      · split at h
        · rename_i s h3
          cases h4 : I.parse s with
          | error e => rw [h4, resBindErr] at h; exact Except.noConfusion h
          | ok t =>
            rw [h4, resBindOk] at h
            exact absurd h (by simp)
        · exact Except.noConfusion h
      · split at h
        · rename_i d3 h3
          cases h4 : enumDelegateF I [] d3 with
          | error e => rw [h4, resBindErr] at h; exact Except.noConfusion h
          | ok u0 =>
            rw [h4, resBindOk] at h
            injection h with h5
            injection h5 with ha hb hc
            subst hb
            subst hc
            exact h4
        · exact absurd h (by simp)

/-- A concrete enum: two string-literal fields and a truncated summary type. -/
def enumED : EnumDecl :=
  { name := "E", typ := some "(\"a\"...)",
    members := [Member.fld { name := "va", typ := "\"a\"" },
                Member.fld { name := "vb", typ := "\"b\"" }] }

/-- Catalog holding only the enum `E`. -/
def catE : Catalog := { enums := [("E", enumED)] }

/-- **C8, witness.** The delegate of the concrete enum `E` is the union of its
fields' resolved literal types, and the summary-independence at concrete
summary strings. -/
theorem c8_enum_delegate_witness :
    enumDelegateF (interp catE 10) [] enumED =
      .ok (RT.union [RT.litStr "a", RT.litStr "b"] false) ∧
    enumDelegateF (interp catE 10) [] { enumED with typ := none } =
      enumDelegateF (interp catE 10) [] { enumED with typ := some "boolean" } := by
  refine ⟨?_, c8_enum_delegate.1 (interp catE 10) enumED none (some "boolean")⟩
  exact c8_enum_delegate.2.1 (interp catE 10) [] enumED
    [("va", DocMember.fld (RT.litStr "a") { name := "va", typ := "\"a\"" }),
     ("vb", DocMember.fld (RT.litStr "b") { name := "vb", typ := "\"b\"" })] rfl

/-! ## Dictionary lemmas for the member-overlay proofs -/

theorem lookup_consP {α : Type} (k a : String) (v : α) (l : List (String × α)) :
    List.lookup k ((a, v) :: l) = if k = a then some v else List.lookup k l := by
  rw [List.lookup_cons]
  by_cases h : k = a
  · simp [h]
  · have hb : (k == a) = false := beq_eq_false_iff_ne.mpr h
    rw [hb, if_neg h]

theorem lookup_eq_none_of_not_mem {α : Type} (k : String) (l : List (String × α))
    (h : k ∉ l.map Prod.fst) : List.lookup k l = none := by
  induction l with
  | nil => rfl
  | cons p rest ih =>
    obtain ⟨a, b⟩ := p
    simp only [List.map_cons, List.mem_cons, not_or] at h
    rw [lookup_consP, if_neg h.1]
    exact ih h.2

theorem lookup_dictInsert {α : Type} (l : List (String × α)) (k knew : String) (v : α) :
    List.lookup k (dictInsert l knew v) = if k = knew then some v else List.lookup k l := by
  induction l with
  | nil =>
    show List.lookup k [(knew, v)] = _
    rw [lookup_consP]
  | cons p rest ih =>
    obtain ⟨a, b⟩ := p
    show List.lookup k (if a = knew then (a, v) :: rest else (a, b) :: dictInsert rest knew v) = _
    by_cases ha : a = knew
    · subst ha
      rw [if_pos rfl, lookup_consP, lookup_consP]
      by_cases h : k = a <;> simp [h]
    · rw [if_neg ha, lookup_consP, ih]
      by_cases h1 : k = a
      · subst h1
        simp [ha, lookup_consP]
      · simp [h1, lookup_consP]

theorem lookup_foldl_dictInsert {α β : Type} (w : α → β) (ms : List (String × α))
    (acc : List (String × β)) (k : String) (hnd : (ms.map Prod.fst).Nodup) :
    List.lookup k (ms.foldl (fun a p => dictInsert a p.1 (w p.2)) acc)
      = (match List.lookup k ms with
         | some v => some (w v)
         | none => List.lookup k acc) := by
  induction ms generalizing acc with
  | nil => rfl
  | cons p rest ih =>
    obtain ⟨k1, v1⟩ := p
    simp only [List.map_cons, List.nodup_cons] at hnd
    simp only [List.foldl_cons]
    rw [ih _ hnd.2, lookup_consP]
    by_cases h : k = k1
    · subst h
      rw [lookup_eq_none_of_not_mem k rest hnd.1, if_pos rfl, lookup_dictInsert, if_pos rfl]
    · rw [if_neg h]
      cases hr : List.lookup k rest with
      | some v => rfl
      | none => rw [lookup_dictInsert, if_neg h]

/-- First present entry of a list of options, in order. -/
def firstSome {α : Type} : List (Option α) → Option α
  | [] => none
  | some v :: _ => some v
  | none :: rest => firstSome rest

theorem firstSome_append {α : Type} (xs ys : List (Option α)) :
    firstSome (xs ++ ys)
      = (match firstSome xs with
         | some v => some v
         | none => firstSome ys) := by
  induction xs with
  | nil => rfl
  | cons o rest ih =>
    cases o with
    | some v => rfl
    | none =>
      show firstSome (rest ++ ys) = _
      rw [ih]
      rfl

theorem lookup_overlayList (k : String) (l : List (List (String × DocMember)))
    (acc : List (String × MemberAttr))
    (hnd : ∀ ms ∈ l, (ms.map Prod.fst).Nodup) :
    List.lookup k (l.foldl (fun a ms =>
        ms.foldl (fun a2 p => dictInsert a2 p.1 (MemberAttr.doc p.2)) a) acc)
      = (match firstSome (l.reverse.map (fun ms => List.lookup k ms)) with
         | some v => some (MemberAttr.doc v)
         | none => List.lookup k acc) := by
  induction l generalizing acc with
  | nil => rfl
  | cons ms rest ih =>
    simp only [List.foldl_cons]
    rw [ih _ (fun x hx => hnd x (by simp [hx])),
      lookup_foldl_dictInsert MemberAttr.doc ms acc k (hnd ms (by simp))]
    rw [show (ms :: rest).reverse.map (fun ms2 => List.lookup k ms2)
        = rest.reverse.map (fun ms2 => List.lookup k ms2) ++ [List.lookup k ms] by simp]
    rw [firstSome_append]
    cases hr : firstSome (rest.reverse.map fun ms2 => List.lookup k ms2) with
    | some v => rfl
    | none =>
      cases hms : List.lookup k ms with
      | some v => rfl
      | none => rfl

theorem foldlM_guarded (recM : RT → Res (List (String × DocMember)))
    (l : List RT) (msl : List (List (String × DocMember)))
    (acc : List (String × MemberAttr))
    (hpt : List.Forall₂ (fun b ms =>
        (if hasMembersAttr b then recM b else .ok []) = .ok ms) l msl) :
    l.foldlM (fun (acc : List (String × MemberAttr)) (b : RT) =>
        if hasMembersAttr b then do
          let ms ← recM b
          .ok (ms.foldl (fun a (p : String × DocMember) =>
            dictInsert a p.1 (MemberAttr.doc p.2)) acc)
        else .ok acc) acc
      = .ok (msl.foldl (fun a (ms : List (String × DocMember)) =>
          ms.foldl (fun a2 (p : String × DocMember) =>
            dictInsert a2 p.1 (MemberAttr.doc p.2)) a) acc) := by
  induction hpt generalizing acc with
  | nil => rfl
  | cons hrel hrest ih =>
    rename_i b ms l2 msl2
    rw [List.foldlM_cons]
    by_cases hg : hasMembersAttr b
    · rw [if_pos hg] at hrel
      rw [if_pos hg, hrel, resBindOk, resBindOk]
      rw [ih]
      simp only [List.foldl_cons]
    · rw [if_neg hg] at hrel
      injection hrel with he
      rw [if_neg hg, resBindOk, ih]
      rw [← he]
      simp only [List.foldl_cons, List.foldl_nil]

theorem mapM_pairs_lookup {β γ : Type} (hyd : β → Res γ)
    (l : List (String × β)) (m : List (String × γ))
    (hmm : l.mapM (fun p => do
        let v ← hyd p.2
        (.ok (p.1, v) : Res (String × γ))) = .ok m) (k : String) :
    (∀ b, List.lookup k l = some b → ∃ v, hyd b = .ok v ∧ List.lookup k m = some v) ∧
    (List.lookup k l = none → List.lookup k m = none) := by
  induction l generalizing m with
  | nil =>
    rw [List.mapM_nil] at hmm
    cases hmm
    exact ⟨fun b hb => absurd hb (by simp [List.lookup]), fun _ => rfl⟩
  | cons p rest ih =>
    obtain ⟨k1, b1⟩ := p
    rw [List.mapM_cons] at hmm
    cases h1 : hyd b1 with
    | error e =>
      rw [h1, resBindErr] at hmm
      exact Except.noConfusion hmm
    | ok v1 =>
      rw [h1, resBindOk, resBindOk] at hmm
      cases h2 : rest.mapM (fun p => do
          let v ← hyd p.2
          (.ok (p.1, v) : Res (String × γ))) with
      | error e =>
        rw [h2, resBindErr] at hmm
        exact Except.noConfusion hmm
      | ok mrest =>
        rw [h2, resBindOk] at hmm
        cases hmm
        have ihr := ih mrest h2
        constructor
        · intro b hb
          rw [lookup_consP] at hb
          by_cases hk : k = k1
          · rw [if_pos hk] at hb
            injection hb with hb
            subst hb
            exact ⟨v1, h1, by rw [lookup_consP, if_pos hk]⟩
          · rw [if_neg hk] at hb
            obtain ⟨v, hv, hm2⟩ := ihr.1 b hb
            exact ⟨v, hv, by rw [lookup_consP, if_neg hk]; exact hm2⟩
        · intro hb
          rw [lookup_consP] at hb
          by_cases hk : k = k1
          · rw [if_pos hk] at hb
            exact Option.noConfusion hb
          · rw [if_neg hk] at hb
            rw [lookup_consP, if_neg hk]
            exact ihr.2 hb

theorem resBindOkIff {α β : Type} (x : Res α) (g : α → Res β) (b : β) :
    (x >>= g = .ok b) ↔ ∃ a, x = .ok a ∧ g a = .ok b := by
  cases x with
  | error e =>
    rw [resBindErr]
    constructor
    · intro h; exact Except.noConfusion h
    · rintro ⟨a, ha, _⟩; exact Except.noConfusion ha
  | ok a =>
    rw [resBindOk]
    constructor
    · intro h; exact ⟨a, rfl, h⟩
    · rintro ⟨a2, ha, hg⟩
      injection ha with ha
      subst ha
      exact hg

/-! ### C2: inheritance overlay order -/

/-- Field `x: string` of base class `A`. -/
def fmAx : FieldMember := { name := "x", typ := "string" }

/-- Field `x: integer` of base class `B`. -/
def fmBx : FieldMember := { name := "x", typ := "integer" }

/-- Base class `A` with `x: string`. -/
def declA : ClassDecl := { name := "A", members := [("x", .fld fmAx)] }

/-- Base class `B` with `x: integer`. -/
def declB : ClassDecl := { name := "B", members := [("x", .fld fmBx)] }

/-- `class C : A, B` with no own members. -/
def declC : ClassDecl := { name := "C", bases := ["A", "B"] }

/-- Catalog holding `A`, `B`, `C`. -/
def cat2 : Catalog := { classes := [("A", declA), ("B", declB), ("C", declC)] }

/-- **C2, counterexample.** For `class C : A, B` where both bases declare a
member `x`, the effective member `x` of `C` resolves to the **earlier** base
`A`'s `x: string` — not, as the claim states, to the later base `B`'s
`x: integer`: `ClassType.members` iterates `reversed(self.bases)`, so an
earlier base's entries are written last and win. -/
theorem c2_counterexample :
    parseE cat2 10 "C" = .ok (RT.cls "C" declC) ∧
    membersE cat2 10 (RT.cls "C" declC) =
      .ok [("x", DocMember.fld (RT.prim "string") fmAx)] ∧
    RT.prim "string" ≠ RT.prim "integer" :=
  ⟨rfl, rfl, by simp⟩

/-- **C2, amended.** `ClassType.members` computes the effective member mapping
by overlaying each declared base's resolved member mapping in **reverse**
declaration order and then overlaying the class's own declared members last:
the class's own declaration always wins, and on a collision between bases the
**earliest** declared base wins (its overlay is applied last). Concretely, for
every member name `k`: if the class declares `k` the result is its own
hydrated member, otherwise the result comes from the first base in declaration
order whose member mapping contains `k` (inherited members pass through
without re-hydration). -/
theorem c2_amended (I : Interp) (f : Nat) (n : String) (d : ClassDecl)
    (m : List (String × DocMember)) (bs : List RT)
    (bms : List (List (String × DocMember)))
    (hnd : (d.members.map Prod.fst).Nodup)
    (hbnd : ∀ ms ∈ bms, (ms.map Prod.fst).Nodup)
    (hm : membersOfF I (f + 1) (RT.cls n d) = .ok m)
    (hb : d.bases.mapM I.parse = .ok bs)
    (hpt : List.Forall₂ (fun b ms =>
        (if hasMembersAttr b then membersOfF I f b else .ok []) = .ok ms) bs bms) :
    ∀ k : String,
      (∀ mem, List.lookup k d.members = some mem →
          ∃ dm, hydrateMemberF I [] mem = .ok dm ∧ List.lookup k m = some dm) ∧
      (List.lookup k d.members = none →
          List.lookup k m = firstSome (bms.map (fun ms => List.lookup k ms))) := by
  have hm2 : classMembersCore I (membersOfF I f) d = .ok m := hm
  unfold classMembersCore at hm2
  rw [hb, resBindOk] at hm2
  rw [foldlM_guarded (membersOfF I f) bs.reverse bms.reverse []
      (List.forall₂_reverse_iff.mpr hpt), resBindOk] at hm2
  intro k
  have H := mapM_pairs_lookup (hydrateAttrF I []) _ m hm2 k
  have hl2 := lookup_foldl_dictInsert MemberAttr.raw d.members
      (bms.reverse.foldl (fun a ms =>
        ms.foldl (fun a2 p => dictInsert a2 p.1 (MemberAttr.doc p.2)) a) []) k hnd
  have hl3 := lookup_overlayList k bms.reverse []
      (fun ms hms => hbnd ms (by simpa using hms))
  rw [List.reverse_reverse] at hl3
  constructor
  · intro mem hmem
    have hat : List.lookup k
        (d.members.foldl (fun a p => dictInsert a p.1 (MemberAttr.raw p.2))
          (bms.reverse.foldl (fun a ms =>
            ms.foldl (fun a2 p => dictInsert a2 p.1 (MemberAttr.doc p.2)) a) []))
        = some (MemberAttr.raw mem) := by
      rw [hl2, hmem]
    obtain ⟨v, hv, hmv⟩ := H.1 _ hat
    exact ⟨v, hv, hmv⟩
  · intro hnone
    cases hfs : firstSome (bms.map fun ms => List.lookup k ms) with
    | some v =>
      have hat : List.lookup k
          (d.members.foldl (fun a p => dictInsert a p.1 (MemberAttr.raw p.2))
            (bms.reverse.foldl (fun a ms =>
              ms.foldl (fun a2 p => dictInsert a2 p.1 (MemberAttr.doc p.2)) a) []))
          = some (MemberAttr.doc v) := by
        rw [hl2, hnone]
        show List.lookup k (bms.reverse.foldl (fun a ms =>
          ms.foldl (fun a2 p => dictInsert a2 p.1 (MemberAttr.doc p.2)) a) []) = _
        rw [hl3, hfs]
      obtain ⟨v', hv', hmv⟩ := H.1 _ hat
      have hveq : v' = v := by
        have hvv : (Except.ok v : Res DocMember) = .ok v' := hv'
        injection hvv with hvv
        exact hvv.symm
      rw [hmv, hveq]
    | none =>
      have hat : List.lookup k
          (d.members.foldl (fun a p => dictInsert a p.1 (MemberAttr.raw p.2))
            (bms.reverse.foldl (fun a ms =>
              ms.foldl (fun a2 p => dictInsert a2 p.1 (MemberAttr.doc p.2)) a) []))
          = none := by
        rw [hl2, hnone]
        show List.lookup k (bms.reverse.foldl (fun a ms =>
          ms.foldl (fun a2 p => dictInsert a2 p.1 (MemberAttr.doc p.2)) a) []) = _
        rw [hl3, hfs]
        rfl
      exact H.2 hat

/-- **C2, amended, witness.** The amended overlay at the concrete
`class C : A, B`: both bases declare `x`, `C` declares none, and the effective
`x` is the first (declaration-order) base's member, i.e. `A`'s. -/
theorem c2_amended_witness :
    List.lookup "x" [("x", DocMember.fld (RT.prim "string") fmAx)] =
      firstSome ([[("x", DocMember.fld (RT.prim "string") fmAx)],
                  [("x", DocMember.fld (RT.prim "integer") fmBx)]].map
        (fun ms => List.lookup "x" ms)) := by
  have h := c2_amended (interp cat2 10) 9 "C" declC
    [("x", DocMember.fld (RT.prim "string") fmAx)]
    [RT.cls "A" declA, RT.cls "B" declB]
    [[("x", DocMember.fld (RT.prim "string") fmAx)],
     [("x", DocMember.fld (RT.prim "integer") fmBx)]]
    (by simp [declC])
    (by intro ms hms
        simp only [List.mem_cons, List.not_mem_nil, or_false] at hms
        rcases hms with rfl | rfl <;> simp)
    rfl rfl
    (List.Forall₂.cons rfl (List.Forall₂.cons rfl List.Forall₂.nil))
  exact (h "x").2 rfl

/-! ### C4: per-member failure isolation -/

theorem mapM_ok_of_all {α β : Type} (f : α → Res β) (l : List α)
    (h : ∀ x ∈ l, ∃ y, f x = .ok y) : ∃ ys, l.mapM f = .ok ys := by
  induction l with
  | nil => exact ⟨[], rfl⟩
  | cons a rest ih =>
    obtain ⟨y, hy⟩ := h a (by simp)
    obtain ⟨ys, hys⟩ := ih (fun x hx => h x (by simp [hx]))
    exact ⟨y :: ys, by rw [List.mapM_cons, hy, resBindOk, hys, resBindOk]; rfl⟩

/-- A class whose field `y` has the unparseable type string `|` besides a
well-formed field `z`. -/
def declD : ClassDecl :=
  { name := "D",
    members := [("y", .fld { name := "y", typ := "|" }),
                ("z", .fld { name := "z", typ := "string" })] }

/-- Catalog holding only `D`. -/
def catD : Catalog := { classes := [("D", declD)] }

/-- **C4, counterexample.** A class containing a field member whose raw type
string fails to parse does **not** resolve its member set with an `Unknown`
substituted: `DocumentedField.from_member` performs no exception handling, so
the parse error of field `y`'s type string `|` propagates and the whole
member-set resolution of `D` fails. -/
theorem c4_counterexample :
    parseE catD 10 "D" = .ok (RT.cls "D" declD) ∧
    membersE catD 10 (RT.cls "D" declD) = .error .unexpected :=
  ⟨rfl, rfl⟩

/-- **C4, amended.** Failure isolation exists only inside
`DocumentedFunction.from_member`: a function member resolves successfully
whenever none of its parameter/return type strings raises a non-parse
exception — each failing parse is replaced by the `Unknown` sentinel. A
*field* member's failing type string, however, propagates its parse error
(`DocumentedField.from_member` catches nothing), aborting resolution of the
whole member set of the class. -/
theorem c4_amended :
    (∀ (I : Interp) (fm : FnMember),
        (∀ p ∈ fm.params, ∀ s, p.typ = some s → I.parse s ≠ .error .runtime) →
        (∀ p ∈ fm.returns, ∀ s, p.typ = some s → I.parse s ≠ .error .runtime) →
        ∃ dm, fromMemberFnF I [] fm = .ok dm) ∧
    (∀ (I : Interp) (ctx : List (String × RT)) (fm : FieldMember) (e : PErr),
        I.parse (fieldSrc fm) = .error e → fromMemberFF I ctx fm = .error e) ∧
    (∀ (I : Interp) (f : Nat) (n : String) (d : ClassDecl) (k : String)
        (fm : FieldMember) (e : PErr) (m : List (String × DocMember)),
        (d.members.map Prod.fst).Nodup →
        List.lookup k d.members = some (Member.fld fm) →
        I.parse (fieldSrc fm) = .error e →
        membersOfF I (f + 1) (RT.cls n d) ≠ .ok m) := by
  have hfld : ∀ (I : Interp) (ctx : List (String × RT)) (fm : FieldMember) (e : PErr),
      I.parse (fieldSrc fm) = .error e → fromMemberFF I ctx fm = .error e := by
    intro I ctx fm e h
    unfold fromMemberFF
    rw [h, resBindErr]
  refine ⟨?_, hfld, ?_⟩
  · intro I fm hp hr
    obtain ⟨ps, hps⟩ := mapM_ok_of_all
      (fun p => match p.typ with
        | none => .ok (p.name, (none : Option RT))
        | some s =>
            match I.parse s with
            | .ok t => .ok (p.name, some t)
            | .error .unexpected => .ok (p.name, some (RT.prim "unknown"))
            | .error .runtime => (.error .runtime : Res (Option String × Option RT)))
      fm.params
      (by
        intro p hmem
        cases hpt : p.typ with
        | none => exact ⟨(p.name, none), by simp only [hpt]⟩
        | some s =>
          cases hps2 : I.parse s with
          | ok t => exact ⟨(p.name, some t), by simp only [hpt, hps2]⟩
          | error err =>
            cases err with
            | unexpected =>
              exact ⟨(p.name, some (RT.prim "unknown")), by simp only [hpt, hps2]⟩
            | runtime => exact absurd hps2 (hp p hmem s hpt))
    obtain ⟨rs, hrs⟩ := mapM_ok_of_all
      (fun p => match p.typ with
        | none => .ok (none : Option RT)
        | some s =>
            match I.parse s with
            | .ok t => .ok (some t)
            | .error .unexpected => .ok (some (RT.prim "unknown"))
            | .error .runtime => (.error .runtime : Res (Option RT)))
      fm.returns
      (by
        intro p hmem
        cases hpt : p.typ with
        | none => exact ⟨none, by simp only [hpt]⟩
        | some s =>
          cases hps2 : I.parse s with
          | ok t => exact ⟨some t, by simp only [hpt, hps2]⟩
          | error err =>
            cases err with
            | unexpected => exact ⟨some (RT.prim "unknown"), by simp only [hpt, hps2]⟩
            | runtime => exact absurd hps2 (hr p hmem s hpt))
    exact ⟨_, by unfold fromMemberFnF; rw [hps, resBindOk, hrs, resBindOk]; rfl⟩
  · intro I f n d k fm e m hnd hlk hpe hok
    have hm2 : classMembersCore I (membersOfF I f) d = .ok m := hok
    unfold classMembersCore at hm2
    obtain ⟨bs, _, hm3⟩ := (resBindOkIff _ _ _).mp hm2
    obtain ⟨attrsv, _, hm4⟩ := (resBindOkIff _ _ _).mp hm3
    have hat : List.lookup k
        (d.members.foldl (fun a p => dictInsert a p.1 (MemberAttr.raw p.2)) attrsv)
        = some (MemberAttr.raw (Member.fld fm)) := by
      rw [lookup_foldl_dictInsert MemberAttr.raw d.members attrsv k hnd, hlk]
    obtain ⟨v, hv, _⟩ := (mapM_pairs_lookup (hydrateAttrF I []) _ m hm4 k).1 _ hat
    have : fromMemberFF I [] fm = .error e := hfld I [] fm e hpe
    have hv2 : (Except.error e : Res DocMember) = .ok v := by
      rw [← this]
      exact hv
    exact Except.noConfusion hv2

/-- **C4, amended, witness.** A function member whose only parameter and only
return both carry unparseable type strings still hydrates (both become
`Unknown`), while the class `D` with the malformed field `y` has no
successfully resolved member set. -/
theorem c4_amended_witness :
    (∃ dm, fromMemberFnF (interp catD 10) []
      { name := "g", params := [{ name := some "a", typ := some "|" }],
        returns := [{ typ := some ")(" }] } = .ok dm) ∧
    membersOfF (interp catD 10) 10 (RT.cls "D" declD) ≠ .ok [] := by
  constructor
  · apply c4_amended.1 (interp catD 10)
    · intro p hmem s hs
      simp only [List.mem_cons, List.not_mem_nil, or_false] at hmem
      subst hmem
      injection hs with hs
      subst hs
      intro h
      exact PErr.noConfusion (Except.error.inj h)
    · intro p hmem s hs
      simp only [List.mem_cons, List.not_mem_nil, or_false] at hmem
      subst hmem
      injection hs with hs
      subst hs
      intro h
      exact PErr.noConfusion (Except.error.inj h)
  · exact c4_amended.2.2 (interp catD 10) 9 "D" declD "y"
      { name := "y", typ := "|" } PErr.unexpected []
      (by simp [declD]) rfl rfl

/-! ### C1: round-trip through the stringifier -/

/-- The hydrated value of `{ [string]: any, a: boolean }`: a type-keyed field
followed by a name-keyed field, in source order. -/
def tblX : RT :=
  RT.table [(.typ (.prim "string"), .prim "any"), (.name "a", .prim "boolean")] false

/-- The hydrated value of `{ a: boolean, [string]: any }`: the same two fields
in the opposite order. -/
def tblY : RT :=
  RT.table [(.name "a", .prim "boolean"), (.typ (.prim "string"), .prim "any")] false

/-- **C1.** The round-trip property fails on tables: `TableType.__str__`
renders all name-keyed fields before all type-keyed fields, so stringifying
the parse of `{ [string]: any, a: boolean }` yields
`{ a: boolean, [string]: any }`, whose re-parse carries the `_fields` tuple in
the opposite order and is not structurally equal to the original — a
divergence that is a reordering, not whitespace around an omission/variadic
marker, and thus outside the documented exception. -/
theorem c1_table_roundtrip_bug :
    parseE {} 50 "\x7b [string]: any, a: boolean \x7d" = .ok tblX ∧
    toTextF 50 tblX = some "\x7b a: boolean, [string]: any \x7d" ∧
    parseE {} 50 "\x7b a: boolean, [string]: any \x7d" = .ok tblY ∧
    tblX ≠ tblY := by
  refine ⟨rfl, rfl, rfl, ?_⟩
  intro h
  simp [tblX, tblY] at h

/-! ### C7: structural value equality -/

/-- **C7, counterexample.** Parsing `string?` yields
`OptionalType(StringType())`; doing so twice yields two values with equal tags
and equal contents (the very same structure), yet Python `==` between them is
`false`: every `OptionalType.__init__` re-assigns a freshly created dynamic
class, the inherited dataclass `__eq__` sees differing classes and returns
`NotImplemented`, and comparison falls back to object identity. So "equal iff
tags and contents are equal" is false for wrapper values. -/
theorem c7_counterexample :
    parseE {} 10 "string?" = .ok (RT.optional (RT.prim "string")) ∧
    pyEqF 10 (RT.optional (RT.prim "string")) (RT.optional (RT.prim "string")) = false :=
  ⟨rfl, rfl⟩

/-- The classification of a qualified name against a catalog: class (0),
alias (1), enum (2), or unresolved (3), following the lookup order of
`TreeHydrator.struct_type`. -/
def structClassification (cat : Catalog) (full : String) : Nat :=
  if (List.lookup full cat.classes).isSome then 0
  else if (List.lookup full cat.aliases).isSome then 1
  else if (List.lookup full cat.enums).isSome then 2
  else 3

theorem structTypeAF_ok_shape (I : Interp) (cat : Catalog) (full : String) (x : RT)
    (h : structTypeAF I cat full = .ok x) :
    (∃ d, List.lookup full cat.classes = some d ∧ x = RT.cls full d) ∨
    (List.lookup full cat.classes = none ∧
      ∃ d t, List.lookup full cat.aliases = some d ∧ x = RT.aliasT full d t) ∨
    ((List.lookup full cat.classes = none ∧ List.lookup full cat.aliases = none) ∧
      ∃ d u, List.lookup full cat.enums = some d ∧ x = RT.enum full d u) ∨
    (List.lookup full cat.classes = none ∧ List.lookup full cat.aliases = none ∧
      List.lookup full cat.enums = none ∧ x = RT.strukt full) := by
  unfold structTypeAF at h
  split at h
  · rename_i d hd
    injection h with h
    exact Or.inl ⟨d, hd, h.symm⟩
  · rename_i hd
    split at h
    · rename_i d2 hd2
      split at h
      · rename_i s hs
        obtain ⟨t, _, hok⟩ := (resBindOkIff _ _ _).mp h
        injection hok with hok
        exact Or.inr (Or.inl ⟨hd, d2, t, hd2, hok.symm⟩)
      · exact Except.noConfusion h
    · rename_i hd2
      split at h
      · rename_i d3 hd3
        obtain ⟨u, _, hok⟩ := (resBindOkIff _ _ _).mp h
        injection hok with hok
        exact Or.inr (Or.inr (Or.inl ⟨⟨hd, hd2⟩, d3, u, hd3, hok.symm⟩))
      · rename_i hd3
        injection h with h
        exact Or.inr (Or.inr (Or.inr ⟨hd, hd2, hd3, h.symm⟩))

/-- **C7, amended.** For the dataclass-based struct variants, Python equality
is structural on the compared fields only — the kind tag and the qualified
name — with the parser, the raw catalog declaration, and the eagerly computed
alias/enum delegates excluded from comparison (`compare=False`): two struct
values of the same binding kind are equal iff their names agree, values of
different binding kinds are never equal, and consequently resolving the same
qualified name against any catalogs that classify it identically yields
Python-equal `Struct` values, independent of the producing parser or catalog
instance (struct resolution is deterministic). The general "equal iff tags and
contents are equal" of the claim, however, fails for the wrapper kinds
(`Optional`/`Array`/`Variadic`), which compare by object identity. -/
theorem c7_amended :
    (∀ (f : Nat) (n n' : String) (d d' : ClassDecl),
        pyEqF (f + 1) (RT.cls n d) (RT.cls n' d') = (n == n')) ∧
    (∀ (f : Nat) (n n' : String) (d d' : AliasDecl) (t t' : RT),
        pyEqF (f + 1) (RT.aliasT n d t) (RT.aliasT n' d' t') = (n == n')) ∧
    (∀ (f : Nat) (n n' : String) (d d' : EnumDecl) (t t' : RT),
        pyEqF (f + 1) (RT.enum n d t) (RT.enum n' d' t') = (n == n')) ∧
    (∀ (f : Nat) (n n' : String),
        pyEqF (f + 1) (RT.strukt n) (RT.strukt n') = (n == n')) ∧
    (∀ (f : Nat) (n n' : String) (d : ClassDecl) (d' : AliasDecl) (t' : RT),
        pyEqF (f + 1) (RT.cls n d) (RT.aliasT n' d' t') = false) ∧
    (∀ (f : Nat) (n n' : String) (d : ClassDecl),
        pyEqF (f + 1) (RT.cls n d) (RT.strukt n') = false) ∧
    (∀ (I I' : Interp) (cat cat' : Catalog) (full : String) (x y : RT) (f : Nat),
        structClassification cat full = structClassification cat' full →
        structTypeAF I cat full = .ok x →
        structTypeAF I' cat' full = .ok y →
        pyEqF (f + 1) x y = true) := by
  refine ⟨fun f n n' d d' => rfl, fun f n n' d d' t t' => rfl, fun f n n' d d' t t' => rfl,
    fun f n n' => rfl, fun f n n' d d' t' => rfl, fun f n n' d => rfl, ?_⟩
  intro I I' cat cat' full x y f hcl hx hy
  rcases structTypeAF_ok_shape I cat full x hx with
      ⟨d1, h1, rfl⟩ | ⟨hn1, d1, t1, h1, rfl⟩ | ⟨⟨hn1, hn1b⟩, d1, u1, h1, rfl⟩ |
      ⟨hn1, hn1b, hn1c, rfl⟩ <;>
    rcases structTypeAF_ok_shape I' cat' full y hy with
        ⟨d2, h2, rfl⟩ | ⟨hn2, d2, t2, h2, rfl⟩ | ⟨⟨hn2, hn2b⟩, d2, u2, h2, rfl⟩ |
        ⟨hn2, hn2b, hn2c, rfl⟩ <;>
      first
        | (show (full == full) = true; simp)
        | simp_all [structClassification]

/-- Catalog with a bare declaration of `C` (no bases), classifying `C` the
same way `cat2` does but through a different declaration record. -/
def catC2 : Catalog := { classes := [("C", { name := "C" })] }

/-- **C7, amended, witness.** Resolving `C` against `cat2` and against the
differently populated `catC2` yields Python-equal class values. -/
theorem c7_amended_witness :
    pyEqF 5 (RT.cls "C" declC) (RT.cls "C" { name := "C" }) = true :=
  c7_amended.2.2.2.2.2.2 (interp cat2 5) (interp catC2 5) cat2 catC2 "C"
    (RT.cls "C" declC) (RT.cls "C" { name := "C" }) 4 rfl rfl rfl

end EmmyluaRender
